import Mathlib

/-
Verification of two passes of the traceur class-lowering compiler:
the class transformer (ClassTransformer, src/unnamed/part_000) and the
free-variable checker (src/src/semantics/FreeVariableChecker.js).

The parse trees are embedded as a single flat inductive type.  Child
arrays of the JavaScript trees (ArgumentList, FormalParameterList,
ObjectLiteralExpression, Block statement lists, class element lists)
are encoded as cons-chains built from the seqNil and seqCons
constructors, and a JavaScript null child (an absent superclass) is
the dedicated constructor missing.  This keeps the inductive
non-nested so that decidable equality can be derived; the transformer
compares subtrees for identity exactly where the source compares node
references.

All recursive traversals take an explicit fuel argument (structural
recursion on the fuel) because the shared class transform feeds a
freshly synthesized default-constructor tree, which is not a subterm
of its input, back into the ordinary constructor transform.  Fuel
exhaustion is reported as an error, and every theorem below is stated
about successful (ok) runs, so fuel never influences a proved fact.
-/

namespace Traceur

/-- Parse tree nodes used by the class transformer, embedded from the
source.  String payloads are identifier or property names. -/
inductive Tree where
  | missing
  | seqNil
  | seqCons (head tail : Tree)
  | identifierExpression (name : String)
  | thisExpression
  | nullLiteral
  | booleanLiteral (b : Bool)
  | stringLiteral (s : String)
  | superExpression
  | memberExpression (operand : Tree) (memberName : String)
  | callExpression (operand args : Tree)
  | arrayLiteral (elements : Tree)
  | objectLiteralExpression (propertyNameAndValues : Tree)
  | propertyNameAssignment (propName : String) (value : Tree)
  | functionExpression (parameterList functionBody : Tree)
  | restParameter (restName : String)
  | formalParameterList (parameters : Tree)
  | spreadExpression (expression : Tree)
  | parenExpression (expression : Tree)
  | assignmentExpression (left right : Tree)
  | block (statements : Tree)
  | expressionStatement (expression : Tree)
  | variableStatement (useLet : Bool) (varName : String) (initializer : Tree)
  | getAccessor (propertyName : String) (body : Tree)
  | setAccessor (propertyName : String) (parameter body : Tree)
  | propertyMethodAssignment (methodName : String) (isGenerator : Bool)
      (parameterList functionBody : Tree)
  | classExpression (superClass elements : Tree)
  | classDeclaration (className : String) (superClass elements : Tree)
  | unknownElement (kind : String)
  deriving DecidableEq, Repr

/-- The per-class State object of the transformer: the originating
class tree, the name expression and the hasSuper flag. -/
structure ClassState where
  tree : Tree
  name : Tree
  hasSuper : Bool
  deriving DecidableEq, Repr

/-- Threaded mutable state of one ClassTransformer run: the
module-level stack of class states, plus the temporary-variable
bookkeeping of the TempVarTransformer base (a fresh-name counter and
the pool of released names). -/
structure TState where
  stack : List ClassState
  counter : Nat
  free : List String
  deriving DecidableEq, Repr

/-- The transformOptions configuration consumed by the declaration
transform (blockBinding selects let versus var). -/
structure Options where
  blockBinding : Bool
  deriving DecidableEq, Repr

def tempName (n : Nat) : String := "$__" ++ toString n

/-- Modelled from the spec: TempVarTransformer.js is not under src.
The spec describes it as providing allocate a fresh unique temporary
binding name and release a previously allocated temporary binding
name, with released slots going back to a free pool. -/
def addTempVar (s : TState) : String × TState :=
  match s.free with
  | n :: rest => (n, { s with free := rest })
  | [] => (tempName s.counter, { s with counter := s.counter + 1 })

/-- Modelled from the spec: release of a temporary back to the free
pool (TempVarTransformer.js is not under src). -/
def removeTempVar (n : String) (s : TState) : TState :=
  { s with free := n :: s.free }

def createClassTarget : Tree :=
  .memberExpression (.memberExpression (.identifierExpression "traceur") "runtime")
    "createClass"

def superCallTarget : Tree :=
  .memberExpression (.memberExpression (.identifierExpression "traceur") "runtime")
    "superCall"

/-- Shape of a rewritten super reference: the runtime super-dispatch
helper applied to the receiver, the class name expression, the member
name and the argument array. -/
def superCallNode (className : Tree) (memberName : String) (args : Tree) : Tree :=
  .callExpression superCallTarget
    (.seqCons .thisExpression
      (.seqCons className
        (.seqCons (.stringLiteral memberName)
          (.seqCons (.arrayLiteral args) .seqNil))))

/-- Modelled from the spec: SuperTransformer.js is not under src.  Per
the spec it is given the class name expression and one member tree,
rewrites every super call and super member access in it into calls
against the runtime super-dispatch helper, and reports back whether
any rewrite occurred. -/
def superTransform : Nat → Tree → Tree → Option (Tree × Bool)
  | 0, _, _ => none
  | f+1, c, t =>
    match t with
    | .callExpression .superExpression args =>
      match superTransform f c args with
      | none => none
      | some (args2, _) => some (superCallNode c "constructor" args2, true)
    | .callExpression (.memberExpression .superExpression m) args =>
      match superTransform f c args with
      | none => none
      | some (args2, _) => some (superCallNode c m args2, true)
    | .memberExpression .superExpression m => some (superCallNode c m .seqNil, true)
    | .superExpression => some (.superExpression, true)
    | .seqCons hd tl =>
      match superTransform f c hd with
      | none => none
      | some (hd2, b1) =>
        match superTransform f c tl with
        | none => none
        | some (tl2, b2) => some (.seqCons hd2 tl2, b1 || b2)
    | .memberExpression op m =>
      match superTransform f c op with
      | none => none
      | some (op2, b) => some (.memberExpression op2 m, b)
    | .callExpression op args =>
      match superTransform f c op with
      | none => none
      | some (op2, b1) =>
        match superTransform f c args with
        | none => none
        | some (args2, b2) => some (.callExpression op2 args2, b1 || b2)
    | .arrayLiteral es =>
      match superTransform f c es with
      | none => none
      | some (es2, b) => some (.arrayLiteral es2, b)
    | .objectLiteralExpression ps =>
      match superTransform f c ps with
      | none => none
      | some (ps2, b) => some (.objectLiteralExpression ps2, b)
    | .propertyNameAssignment n v =>
      match superTransform f c v with
      | none => none
      | some (v2, b) => some (.propertyNameAssignment n v2, b)
    | .functionExpression ps body =>
      match superTransform f c ps with
      | none => none
      | some (ps2, b1) =>
        match superTransform f c body with
        | none => none
        | some (body2, b2) => some (.functionExpression ps2 body2, b1 || b2)
    | .formalParameterList ps =>
      match superTransform f c ps with
      | none => none
      | some (ps2, b) => some (.formalParameterList ps2, b)
    | .spreadExpression e =>
      match superTransform f c e with
      | none => none
      | some (e2, b) => some (.spreadExpression e2, b)
    | .parenExpression e =>
      match superTransform f c e with
      | none => none
      | some (e2, b) => some (.parenExpression e2, b)
    | .assignmentExpression l r =>
      match superTransform f c l with
      | none => none
      | some (l2, b1) =>
        match superTransform f c r with
        | none => none
        | some (r2, b2) => some (.assignmentExpression l2 r2, b1 || b2)
    | .block sts =>
      match superTransform f c sts with
      | none => none
      | some (sts2, b) => some (.block sts2, b)
    | .expressionStatement e =>
      match superTransform f c e with
      | none => none
      | some (e2, b) => some (.expressionStatement e2, b)
    | .variableStatement k n i =>
      match superTransform f c i with
      | none => none
      | some (i2, b) => some (.variableStatement k n i2, b)
    | .getAccessor pn body =>
      match superTransform f c body with
      | none => none
      | some (body2, b) => some (.getAccessor pn body2, b)
    | .setAccessor pn p body =>
      match superTransform f c p with
      | none => none
      | some (p2, b1) =>
        match superTransform f c body with
        | none => none
        | some (body2, b2) => some (.setAccessor pn p2 body2, b1 || b2)
    | .propertyMethodAssignment n g ps body =>
      match superTransform f c ps with
      | none => none
      | some (ps2, b1) =>
        match superTransform f c body with
        | none => none
        | some (body2, b2) => some (.propertyMethodAssignment n g ps2 body2, b1 || b2)
    | .classExpression sc es =>
      match superTransform f c sc with
      | none => none
      | some (sc2, b1) =>
        match superTransform f c es with
        | none => none
        | some (es2, b2) => some (.classExpression sc2 es2, b1 || b2)
    | .classDeclaration n sc es =>
      match superTransform f c sc with
      | none => none
      | some (sc2, b1) =>
        match superTransform f c es with
        | none => none
        | some (es2, b2) => some (.classDeclaration n sc2 es2, b1 || b2)
    | other => some (other, false)

/-- The formal parameter list of the synthesized default constructor:
a single rest parameter named args. -/
def defaultConstructorParams : Tree :=
  .formalParameterList (.seqCons (.restParameter "args") .seqNil)

/-- The body of the synthesized default constructor: one statement
calling super with the rest parameter spread back out. -/
def defaultConstructorBody : Tree :=
  .block
    (.seqCons
      (.expressionStatement
        (.callExpression .superExpression
          (.seqCons (.spreadExpression (.identifierExpression "args")) .seqNil)))
      .seqNil)

/-- Appends one element at the end of a cons-chain (the push on the
elements array in transformClassShared_). -/
def seqAppend : Tree → Tree → Tree
  | .seqNil, x => .seqCons x .seqNil
  | .seqCons h t, x => .seqCons h (seqAppend t x)
  | other, _ => other

/-- Sets the hasSuper flag of the innermost class state (the mutation
state.hasSuper = true performed through peekState). -/
def setTopHasSuper (s : TState) : TState :=
  match s.stack with
  | [] => s
  | st :: rest => { s with stack := { st with hasSuper := true } :: rest }

mutual

/-- Generic dispatch of the tree transformer: class expressions and
class declarations go to their dedicated transforms, every other node
is rebuilt from its transformed children, and a JavaScript null child
is returned unchanged. -/
def transformAny : Nat → Options → TState → Tree → Except String Tree × TState
  | 0, _, s, _ => (.error "out of fuel", s)
  | f+1, o, s, t =>
    match t with
    | .classExpression sc elems => transformClassExpression f o s sc elems
    | .classDeclaration n sc elems => transformClassDeclaration f o s n sc elems
    | .missing => (.ok .missing, s)
    | .seqNil => (.ok .seqNil, s)
    | .seqCons hd tl =>
      match transformAny f o s hd with
      | (.error e, s1) => (.error e, s1)
      | (.ok hd2, s1) =>
        match transformAny f o s1 tl with
        | (.error e, s2) => (.error e, s2)
        | (.ok tl2, s2) => (.ok (.seqCons hd2 tl2), s2)
    | .identifierExpression n => (.ok (.identifierExpression n), s)
    | .thisExpression => (.ok .thisExpression, s)
    | .nullLiteral => (.ok .nullLiteral, s)
    | .booleanLiteral b => (.ok (.booleanLiteral b), s)
    | .stringLiteral str => (.ok (.stringLiteral str), s)
    | .superExpression => (.ok .superExpression, s)
    | .memberExpression op m =>
      match transformAny f o s op with
      | (.error e, s1) => (.error e, s1)
      | (.ok op2, s1) => (.ok (.memberExpression op2 m), s1)
    | .callExpression op args =>
      match transformAny f o s op with
      | (.error e, s1) => (.error e, s1)
      | (.ok op2, s1) =>
        match transformAny f o s1 args with
        | (.error e, s2) => (.error e, s2)
        | (.ok args2, s2) => (.ok (.callExpression op2 args2), s2)
    | .arrayLiteral es =>
      match transformAny f o s es with
      | (.error e, s1) => (.error e, s1)
      | (.ok es2, s1) => (.ok (.arrayLiteral es2), s1)
    | .objectLiteralExpression ps =>
      match transformAny f o s ps with
      | (.error e, s1) => (.error e, s1)
      | (.ok ps2, s1) => (.ok (.objectLiteralExpression ps2), s1)
    | .propertyNameAssignment n v =>
      match transformAny f o s v with
      | (.error e, s1) => (.error e, s1)
      | (.ok v2, s1) => (.ok (.propertyNameAssignment n v2), s1)
    | .functionExpression ps body =>
      match transformAny f o s ps with
      | (.error e, s1) => (.error e, s1)
      | (.ok ps2, s1) =>
        match transformAny f o s1 body with
        | (.error e, s2) => (.error e, s2)
        | (.ok body2, s2) => (.ok (.functionExpression ps2 body2), s2)
    | .restParameter n => (.ok (.restParameter n), s)
    | .formalParameterList ps =>
      match transformAny f o s ps with
      | (.error e, s1) => (.error e, s1)
      | (.ok ps2, s1) => (.ok (.formalParameterList ps2), s1)
    | .spreadExpression e =>
      match transformAny f o s e with
      | (.error er, s1) => (.error er, s1)
      | (.ok e2, s1) => (.ok (.spreadExpression e2), s1)
    | .parenExpression e =>
      match transformAny f o s e with
      | (.error er, s1) => (.error er, s1)
      | (.ok e2, s1) => (.ok (.parenExpression e2), s1)
    | .assignmentExpression l r =>
      match transformAny f o s l with
      | (.error e, s1) => (.error e, s1)
      | (.ok l2, s1) =>
        match transformAny f o s1 r with
        | (.error e, s2) => (.error e, s2)
        | (.ok r2, s2) => (.ok (.assignmentExpression l2 r2), s2)
    | .block sts =>
      match transformAny f o s sts with
      | (.error e, s1) => (.error e, s1)
      | (.ok sts2, s1) => (.ok (.block sts2), s1)
    | .expressionStatement e =>
      match transformAny f o s e with
      | (.error er, s1) => (.error er, s1)
      | (.ok e2, s1) => (.ok (.expressionStatement e2), s1)
    | .variableStatement k n i =>
      match transformAny f o s i with
      | (.error e, s1) => (.error e, s1)
      | (.ok i2, s1) => (.ok (.variableStatement k n i2), s1)
    | .getAccessor pn body =>
      match transformAny f o s body with
      | (.error e, s1) => (.error e, s1)
      | (.ok body2, s1) => (.ok (.getAccessor pn body2), s1)
    | .setAccessor pn p body =>
      match transformAny f o s p with
      | (.error e, s1) => (.error e, s1)
      | (.ok p2, s1) =>
        match transformAny f o s1 body with
        | (.error e, s2) => (.error e, s2)
        | (.ok body2, s2) => (.ok (.setAccessor pn p2 body2), s2)
    | .propertyMethodAssignment n g ps body =>
      match transformAny f o s ps with
      | (.error e, s1) => (.error e, s1)
      | (.ok ps2, s1) =>
        match transformAny f o s1 body with
        | (.error e, s2) => (.error e, s2)
        | (.ok body2, s2) => (.ok (.propertyMethodAssignment n g ps2 body2), s2)
    | .unknownElement k => (.ok (.unknownElement k), s)

/-- transformClassExpression from the source: reserve a temporary,
run the shared transform under that name, then either keep the
temporary and return a parenthesized assignment into it (some member
used super) or release the temporary and return the runtime call
directly. -/
def transformClassExpression : Nat → Options → TState → Tree → Tree →
    Except String Tree × TState
  | 0, _, s, _, _ => (.error "out of fuel", s)
  | f+1, o, s, sc, elems =>
  match addTempVar s with
  | (tempIdent, s1) =>
    match transformClassShared f o s1 (.classExpression sc elems) sc elems tempIdent with
    | (.error e, s2) => (.error e, s2)
    | (.ok (classTree, hasSuper), s2) =>
      if hasSuper then
        (.ok (.parenExpression
          (.assignmentExpression (.identifierExpression tempIdent) classTree)), s2)
      else
        (.ok classTree, removeTempVar tempIdent s2)

/-- transformClassDeclaration from the source: wrap the shared
transform result in a variable statement using let when block binding
is enabled and var otherwise. -/
def transformClassDeclaration : Nat → Options → TState → String → Tree → Tree →
    Except String Tree × TState
  | 0, _, s, _, _, _ => (.error "out of fuel", s)
  | f+1, o, s, n, sc, elems =>
  match transformClassShared f o s (.classDeclaration n sc elems) sc elems n with
  | (.error e, s1) => (.error e, s1)
  | (.ok (classTree, _), s1) =>
    (.ok (.variableStatement o.blockBinding n classTree), s1)

/-- transformClassShared_ from the source: transform the superclass,
push a class state, transform the members, append a default
constructor when no user constructor exists, pop the class state, and
build the runtime createClass call carrying the member object
literal, the superclass or a null-literal sentinel, and the two
booleans hasConstructor and hasExtendsExpression.  The result is
paired with the popped state hasSuper flag. -/
def transformClassShared : Nat → Options → TState → Tree → Tree → Tree → String →
    Except String (Tree × Bool) × TState
  | 0, _, s, _, _, _, _ => (.error "out of fuel", s)
  | f+1, o, s, tree, sc, elems, name =>
  match transformAny f o s sc with
  | (.error e, s1) => (.error e, s1)
  | (.ok superClass, s1) =>
    let state : ClassState :=
      { tree := tree, name := .identifierExpression name, hasSuper := false }
    let s2 : TState := { s1 with stack := state :: s1.stack }
    match transformElements f o s2 elems with
    | (.error e, s3) => (.error e, s3)
    | (.ok (elems2, hasCtor), s3) =>
      match (if hasCtor then ((.ok elems2 : Except String Tree), s3)
             else
               match transformConstructor f o s3 defaultConstructorParams
                   defaultConstructorBody with
               | (.error e, s4) => ((.error e : Except String Tree), s4)
               | (.ok d, s4) => (.ok (seqAppend elems2 d), s4)) with
      | (.error e, s4) => (.error e, s4)
      | (.ok elems3, s4) =>
        match s4.stack with
        | [] => (.error "class state stack mismatch", s4)
        | st :: rest =>
          (.ok (.callExpression createClassTarget
              (.seqCons (.objectLiteralExpression elems3)
                (.seqCons (if superClass = Tree.missing then .nullLiteral else superClass)
                  (.seqCons (.booleanLiteral hasCtor)
                    (.seqCons (.booleanLiteral (superClass ≠ Tree.missing)) .seqNil)))),
            st.hasSuper),
           { s4 with stack := rest })

/-- The elements.map dispatch of transformClassShared_: get accessors,
set accessors and methods are transformed, a member named constructor
goes through the constructor transform and is remembered, and any
other member kind is a fatal error.  Returns the transformed element
chain and whether a user constructor was seen. -/
def transformElements : Nat → Options → TState → Tree →
    Except String (Tree × Bool) × TState
  | 0, _, s, _ => (.error "out of fuel", s)
  | f+1, o, s, elems =>
    match elems with
    | .seqNil => (.ok (.seqNil, false), s)
    | .seqCons e rest =>
      match (match e with
             | .getAccessor pn body =>
               match transformGetAccessor f o s pn body with
               | (.error er, s1) => ((.error er : Except String (Tree × Bool)), s1)
               | (.ok e2, s1) => (.ok (e2, false), s1)
             | .setAccessor pn p body =>
               match transformSetAccessor f o s pn p body with
               | (.error er, s1) => ((.error er : Except String (Tree × Bool)), s1)
               | (.ok e2, s1) => (.ok (e2, false), s1)
             | .propertyMethodAssignment n g ps body =>
               if n = "constructor" then
                 match transformConstructor f o s ps body with
                 | (.error er, s1) => ((.error er : Except String (Tree × Bool)), s1)
                 | (.ok e2, s1) => (.ok (e2, true), s1)
               else
                 match transformPropertyMethodAssignment f o s n g ps body with
                 | (.error er, s1) => ((.error er : Except String (Tree × Bool)), s1)
                 | (.ok e2, s1) => (.ok (e2, false), s1)
             | _ => ((.error "Unexpected class element", s) :
                 Except String (Tree × Bool) × TState)) with
      | (.error er, s1) => (.error er, s1)
      | (.ok (e2, isCtor), s1) =>
        match transformElements f o s1 rest with
        | (.error er, s2) => (.error er, s2)
        | (.ok (rest2, restCtor), s2) =>
          (.ok (.seqCons e2 rest2, isCtor || restCtor), s2)
    | _ => (.error "malformed class element list", s)

/-- transformGetAccessor_ from the source: rewrite super in the body
and keep the original node when the body is unchanged. -/
def transformGetAccessor : Nat → Options → TState → String → Tree →
    Except String Tree × TState
  | 0, _, s, _, _ => (.error "out of fuel", s)
  | f+1, o, s, pn, body =>
  match transformSuperInBlock f o s body with
  | (.error e, s1) => (.error e, s1)
  | (.ok body2, s1) =>
    if body2 = body then (.ok (.getAccessor pn body), s1)
    else (.ok (.getAccessor pn body2), s1)

/-- transformSetAccessor_ from the source: transform the parameter,
rewrite super in the body, and return the original node, original
parameter included, whenever the body is unchanged. -/
def transformSetAccessor : Nat → Options → TState → String → Tree → Tree →
    Except String Tree × TState
  | 0, _, s, _, _, _ => (.error "out of fuel", s)
  | f+1, o, s, pn, param, body =>
  match transformAny f o s param with
  | (.error e, s1) => (.error e, s1)
  | (.ok param2, s1) =>
    match transformSuperInBlock f o s1 body with
    | (.error e, s2) => (.error e, s2)
    | (.ok body2, s2) =>
      if body2 = body then (.ok (.setAccessor pn param body), s2)
      else (.ok (.setAccessor pn param2 body2), s2)

/-- transformPropertyMethodAssignment_ from the source: transform the
parameter list, rewrite super in the body, and keep the original node
when neither changed. -/
def transformPropertyMethodAssignment : Nat → Options → TState → String → Bool →
    Tree → Tree → Except String Tree × TState
  | 0, _, s, _, _, _, _ => (.error "out of fuel", s)
  | f+1, o, s, n, g, ps, body =>
  match transformAny f o s ps with
  | (.error e, s1) => (.error e, s1)
  | (.ok ps2, s1) =>
    match transformSuperInBlock f o s1 body with
    | (.error e, s2) => (.error e, s2)
    | (.ok body2, s2) =>
      if ps2 = ps ∧ body2 = body then
        (.ok (.propertyMethodAssignment n g ps body), s2)
      else (.ok (.propertyMethodAssignment n g ps2 body2), s2)

/-- transformConstructor_ from the source: transform the parameter
list, rewrite super in the body, and repackage the result as a plain
property named constructor holding a function expression. -/
def transformConstructor : Nat → Options → TState → Tree → Tree →
    Except String Tree × TState
  | 0, _, s, _, _ => (.error "out of fuel", s)
  | f+1, o, s, ps, body =>
  match transformAny f o s ps with
  | (.error e, s1) => (.error e, s1)
  | (.ok parameters, s1) =>
    match transformSuperInBlock f o s1 body with
    | (.error e, s2) => (.error e, s2)
    | (.ok functionBody, s2) =>
      (.ok (.propertyNameAssignment "constructor"
        (.functionExpression parameters functionBody)), s2)

/-- transformSuperInBlock_ from the source: read the innermost class
state, run the generic traversal over the member body (this is where
nested classes are transformed), then the super rewrite, and set the
innermost hasSuper flag when the super rewrite reports a rewrite. -/
def transformSuperInBlock : Nat → Options → TState → Tree →
    Except String Tree × TState
  | 0, _, s, _ => (.error "out of fuel", s)
  | f+1, o, s, t =>
  match s.stack with
  | [] => (.error "no class state on the stack", s)
  | st :: _ =>
    match transformAny f o s t with
    | (.error e, s1) => (.error e, s1)
    | (.ok t1, s1) =>
      match superTransform f st.name t1 with
      | none => (.error "out of fuel", s1)
      | some (t2, hs) =>
        (.ok t2, if hs then setTopHasSuper s1 else s1)

end

def defaultCtorTransformed (className : Tree) : Tree :=
  .propertyNameAssignment "constructor"
    (.functionExpression defaultConstructorParams
      (.block
        (.seqCons
          (.expressionStatement
            (superCallNode className "constructor"
              (.seqCons (.spreadExpression (.identifierExpression "args")) .seqNil)))
          .seqNil)))

def elementsHaveConstructor : Tree → Bool
  | .seqCons e rest =>
    (match e with
     | .propertyMethodAssignment n _ _ _ => decide (n = "constructor")
     | _ => false) || elementsHaveConstructor rest
  | _ => false

/-- The second state has the same class stack as the first except
that the innermost hasSuper flag may have been switched on. -/
def TopUpd (s s2 : TState) : Prop :=
  s2.stack = s.stack ∨
    ∃ st rest, s.stack = st :: rest ∧
      s2.stack = { st with hasSuper := true } :: rest

def innerClassElems : Tree :=
  .seqCons (.propertyMethodAssignment "constructor" false (.formalParameterList .seqNil)
    (.block (.seqCons (.expressionStatement (.callExpression .superExpression .seqNil))
      .seqNil))) .seqNil

def outerClassElems : Tree :=
  .seqCons (.propertyMethodAssignment "constructor" false (.formalParameterList .seqNil)
      (.block .seqNil))
    (.seqCons (.propertyMethodAssignment "m" false (.formalParameterList .seqNil)
      (.block (.seqCons (.expressionStatement
        (.classExpression (.identifierExpression "B") innerClassElems)) .seqNil)))
      .seqNil)


end Traceur

namespace FVC

/-
Embedding of the FreeVariableChecker.  The checker runs after all
other lowering passes, so its tree language is the small fixed set of
scope-introducing constructs the source handles; locations are plain
source offsets (the offset of location.start), and a synthesized node
without a location carries none.  Function declarations and function
expressions share one node kind, as in the source, where only the
statement-list position decides hoisting.
-/

/-- Parse tree nodes seen by the free-variable checker. -/
inductive PTree where
  | program (elements : List PTree)
  | block (statements : List PTree)
  | functionDeclaration (name : String) (nameLoc : Option Nat)
      (params : List PTree) (body : PTree)
  | arrowFunction (params : List PTree) (body : PTree)
  | getAccessor (body : PTree)
  | setAccessor (parameter : PTree) (body : PTree)
  | catchClause (binding : PTree) (body : PTree)
  | variableStatement (decls : List PTree)
  | variableDeclaration (lvalue : PTree) (initializer : Option PTree)
  | bindingIdentifier (name : String) (loc : Option Nat)
  | identifierExpression (name : String) (loc : Option Nat)
  | expressionStatement (expression : PTree)
  | returnStatement (expression : Option PTree)
  | callExpression (operand : PTree) (args : List PTree)
  | literal

/-- One link of the scope chain: insertion-ordered name-to-location
mappings for pending references and for declarations (first
occurrence wins in both). -/
structure Scope where
  references : List (String × Option Nat)
  declarations : List (String × Option Nat)
  deriving DecidableEq, Repr

/-- Checker state: the scope chain (innermost first, the root last)
and the diagnostics delivered to the error reporter so far, in
delivery order. -/
structure CState where
  scopes : List Scope
  reported : List (Nat × String)
  deriving DecidableEq, Repr

def lookupKey (l : List (String × Option Nat)) (n : String) : Option (Option Nat) :=
  (l.find? (fun p => p.1 == n)).map (fun p => p.2)

def pushScope (st : CState) : CState :=
  { st with scopes := { references := [], declarations := [] } :: st.scopes }

/-- visitIdentifierExpression: record the first-seen location of a
name in the innermost scope reference mapping. -/
def addReference (n : String) (l : Option Nat) (st : CState) : CState :=
  match st.scopes with
  | [] => st
  | sc :: rest =>
    if (lookupKey sc.references n).isSome then st
    else { st with scopes := { sc with references := sc.references ++ [(n, l)] } :: rest }

/-- declareVariable_: record the first-seen location of a name in the
innermost scope declaration mapping; an empty name is skipped. -/
def declareVariable (n : String) (l : Option Nat) (st : CState) : CState :=
  if n = "" then st
  else
    match st.scopes with
    | [] => st
    | sc :: rest =>
      if (lookupKey sc.declarations n).isSome then st
      else
        { st with scopes :=
            { sc with declarations := sc.declarations ++ [(n, l)] } :: rest }

/-- The pending references of a scope not matched by one of its own
declarations, in reference-recording order. -/
def pendingUnresolved (sc : Scope) : List (String × Option Nat) :=
  sc.references.filter (fun p => (lookupKey sc.declarations p.1).isNone)

/-- Walks the unresolved references of the root scope in order: the
first one without a recorded location aborts with the fatal
generated-variable error, otherwise each yields a diagnostic. -/
def collectRootErrors : List (String × Option Nat) → Except String (List (Nat × String))
  | [] => .ok []
  | (n, none) :: _ => .error ("generated variable " ++ n ++ " is not defined")
  | (n, some l) :: rest =>
    match collectRootErrors rest with
    | .error e => .error e
    | .ok es => .ok ((l, n) :: es)

def insertByOffset (e : Nat × String) : List (Nat × String) → List (Nat × String)
  | [] => [e]
  | x :: rest => if e.1 ≤ x.1 then e :: x :: rest else x :: insertByOffset e rest

/-- Ascending sort on the source offset, modelling the errors.sort
call with the numeric offset comparator. -/
def sortByOffset : List (Nat × String) → List (Nat × String)
  | [] => []
  | e :: rest => insertByOffset e (sortByOffset rest)

/-- validateScope_ combined with the scope pop of pop_: promotes the
unresolved references of a non-root scope into the parent unless the
parent already holds a pending reference of the same name; at the
root, a location-less unresolved reference is a fatal internal error,
and the located ones are reported in ascending source order. -/
def validateScope (st : CState) : Except String CState :=
  match st.scopes with
  | [] => .error "FreeVariableChecker scope mismatch"
  | sc :: rest =>
    let unresolved := pendingUnresolved sc
    match rest with
    | [] =>
      match collectRootErrors unresolved with
      | .error e => .error e
      | .ok errs => .ok { scopes := [], reported := st.reported ++ sortByOffset errs }
    | parent :: others =>
      let promoted :=
        unresolved.filter (fun p => (lookupKey parent.references p.1).isNone)
      .ok { st with scopes :=
          { parent with references := parent.references ++ promoted } :: others }

/-- Extracts the name and location carried by a binding identifier or
identifier expression (getVariableName with the node location). -/
def bindingInfo : PTree → String × Option Nat
  | .bindingIdentifier n l => (n, l)
  | .identifierExpression n l => (n, l)
  | _ => ("", none)

mutual

/-- Generic dispatch of the checker visitor over one node. -/
def visitAny : Nat → CState → PTree → Except String CState
  | 0, _, _ => .error "out of fuel"
  | f+1, st, t =>
    match t with
    | .program elems =>
      match visitStatements f (pushScope st) elems with
      | .error e => .error e
      | .ok st1 => validateScope st1
    | .block stmts => visitStatements f st stmts
    | .functionDeclaration n nl ps body => visitFunction f st (some (n, nl)) ps body
    | .arrowFunction ps body => visitFunction f st none ps body
    | .getAccessor body =>
      match visitAny f (pushScope st) body with
      | .error e => .error e
      | .ok st1 => validateScope st1
    | .setAccessor param body =>
      let st1 := declareVariable (bindingInfo param).1 (bindingInfo param).2
        (pushScope st)
      match visitAny f st1 body with
      | .error e => .error e
      | .ok st2 => validateScope st2
    | .catchClause b body =>
      match visitAny f (pushScope st) b with
      | .error e => .error e
      | .ok st1 =>
        match visitAny f st1 body with
        | .error e => .error e
        | .ok st2 => validateScope st2
    | .variableStatement ds => visitVarDecls f st ds
    | .variableDeclaration lv init =>
      let st1 := declareVariable (bindingInfo lv).1 (bindingInfo lv).2 st
      visitOpt f st1 init
    | .bindingIdentifier n l => .ok (declareVariable n l st)
    | .identifierExpression n l => .ok (addReference n l st)
    | .expressionStatement e => visitAny f st e
    | .returnStatement e => visitOpt f st e
    | .callExpression op args =>
      match visitAny f st op with
      | .error e => .error e
      | .ok st1 => visitList f st1 args
    | .literal => .ok st

/-- visitStatements_: before each statement of a program or block
list is visited, a function-declaration statement has its name
declared in the enclosing scope (hoisting). -/
def visitStatements : Nat → CState → List PTree → Except String CState
  | 0, _, _ => .error "out of fuel"
  | _+1, st, [] => .ok st
  | f+1, st, stmt :: rest =>
    let st1 :=
      match stmt with
      | .functionDeclaration n nl _ _ => declareVariable n nl st
      | _ => st
    match visitAny f st1 stmt with
    | .error e => .error e
    | .ok st2 => visitStatements f st2 rest

/-- visitFunction_: push a scope, declare the function name (absent
for arrow functions), the implicit arguments binding and the formal
parameters, then visit the body and pop. -/
def visitFunction : Nat → CState → Option (String × Option Nat) → List PTree →
    PTree → Except String CState
  | 0, _, _, _, _ => .error "out of fuel"
  | f+1, st, nameInfo, ps, body =>
    let st1 := pushScope st
    let st2 :=
      match nameInfo with
      | some (n, l) => declareVariable n l st1
      | none => st1
    let st3 := declareVariable "arguments" none st2
    match visitList f st3 ps with
    | .error e => .error e
    | .ok st4 =>
      match visitAny f st4 body with
      | .error e => .error e
      | .ok st5 => validateScope st5

/-- visitVariableDeclarationList: declare each lvalue and visit each
initializer. -/
def visitVarDecls : Nat → CState → List PTree → Except String CState
  | 0, _, _ => .error "out of fuel"
  | _+1, st, [] => .ok st
  | f+1, st, d :: rest =>
    match d with
    | .variableDeclaration lv init =>
      let st1 := declareVariable (bindingInfo lv).1 (bindingInfo lv).2 st
      match visitOpt f st1 init with
      | .error e => .error e
      | .ok st2 => visitVarDecls f st2 rest
    | other =>
      match visitAny f st other with
      | .error e => .error e
      | .ok st2 => visitVarDecls f st2 rest

def visitList : Nat → CState → List PTree → Except String CState
  | 0, _, _ => .error "out of fuel"
  | _+1, st, [] => .ok st
  | f+1, st, t :: rest =>
    match visitAny f st t with
    | .error e => .error e
    | .ok st1 => visitList f st1 rest

def visitOpt : Nat → CState → Option PTree → Except String CState
  | 0, _, _ => .error "out of fuel"
  | _+1, st, none => .ok st
  | f+1, st, some t => visitAny f st t

end

/-- checkProgram: push the root scope, seed it with every ambient
global name (the prototype-chain walk of the source, supplied here as
an explicit list), visit the program elements, then validate and pop
the root scope. -/
def checkProgram (f : Nat) (globals : List String) (elements : List PTree) :
    Except String CState :=
  let st0 : CState := { scopes := [], reported := [] }
  let st1 := globals.foldl (fun st n => declareVariable n none st) (pushScope st0)
  match visitStatements f st1 elements with
  | .error e => .error e
  | .ok st2 => validateScope st2

/-- The second checker state extends the scopes of the first: same
scope chain below the innermost scope, and the innermost scope has
only grown (both mappings extended at the end). -/
def ScopeExt (st st2 : CState) : Prop :=
  ∀ hd tl, st.scopes = hd :: tl → ∃ hd2, st2.scopes = hd2 :: tl ∧
    (∃ d, hd2.declarations = hd.declarations ++ d) ∧
    (∃ rr, hd2.references = hd.references ++ rr)

/-- Relation produced by visiting a whole function: the enclosing
scope chain is intact, the enclosing declarations are untouched, and
only the enclosing pending references may have grown (promotion at
the pop of the function scope). -/
def FnScopeExt (st st2 : CState) : Prop :=
  ∀ hd tl, st.scopes = hd :: tl → ∃ rr, st2.scopes =
    { references := hd.references ++ rr, declarations := hd.declarations } :: tl


end FVC

namespace Traceur

/-
Stack discipline of the class transformer.  TopUpd relates two
transformer states when the second differs from the first at most by
the hasSuper flag of the innermost class state: this is the only
stack effect a member-level transform may have.  Whole-tree
transforms preserve the stack exactly on success.
-/

theorem topUpd_refl (s : TState) : TopUpd s s := Or.inl rfl

theorem topUpd_of_eq {s s2 : TState} (h : s2.stack = s.stack) : TopUpd s s2 :=
  Or.inl h

theorem topUpd_left {s1 s s2 : TState} (h : s1.stack = s.stack)
    (h2 : TopUpd s1 s2) : TopUpd s s2 := by
  rcases h2 with h2 | ⟨st, rest, h3, h4⟩
  · exact Or.inl (h2.trans h)
  · exact Or.inr ⟨st, rest, h ▸ h3, h4⟩

theorem topUpd_trans {s s2 s3 : TState} (h1 : TopUpd s s2) (h2 : TopUpd s2 s3) :
    TopUpd s s3 := by
  rcases h1 with h1 | ⟨st, rest, ha, hb⟩
  · exact topUpd_left h1 h2
  · rcases h2 with h2 | ⟨st2, rest2, hc, hd⟩
    · exact Or.inr ⟨st, rest, ha, h2.trans hb⟩
    · rw [hb] at hc
      cases hc
      exact Or.inr ⟨st, rest, ha, hd⟩

theorem addTempVar_stack (s : TState) : ((addTempVar s).2).stack = s.stack := by
  unfold addTempVar; split <;> rfl

theorem removeTempVar_stack (n : String) (s : TState) :
    (removeTempVar n s).stack = s.stack := rfl

theorem setTopHasSuper_stack {s : TState} {st : ClassState} {rest : List ClassState}
    (h : s.stack = st :: rest) :
    (setTopHasSuper s).stack = { st with hasSuper := true } :: rest := by
  unfold setTopHasSuper
  rw [h]

end Traceur

namespace Traceur

theorem topUpd_tail {s s2 : TState} {st0 : ClassState} {tail : List ClassState}
    (hs : s.stack = st0 :: tail) (h : TopUpd s s2) :
    ∃ st1, s2.stack = st1 :: tail := by
  rcases h with h | ⟨st3, rest3, h1, h2⟩
  · exact ⟨st0, h ▸ hs⟩
  · rw [hs] at h1
    cases h1
    exact ⟨_, h2⟩

set_option maxHeartbeats 2000000 in

/-- The class stack below the innermost entry is never touched, and
on success every whole-tree transform restores the stack exactly:
conjunctions over all mutually recursive transformer functions,
proved by induction on the fuel. -/
theorem stackPreservation : ∀ f : Nat,
    (∀ o s t r s2, transformAny f o s t = (.ok r, s2) → s2.stack = s.stack) ∧
    (∀ o s sc elems r s2, transformClassExpression f o s sc elems = (.ok r, s2) →
      s2.stack = s.stack) ∧
    (∀ o s n sc elems r s2, transformClassDeclaration f o s n sc elems = (.ok r, s2) →
      s2.stack = s.stack) ∧
    (∀ o s tree sc elems name r b s2,
      transformClassShared f o s tree sc elems name = (.ok (r, b), s2) →
      s2.stack = s.stack) ∧
    (∀ o s elems r b s2, transformElements f o s elems = (.ok (r, b), s2) →
      TopUpd s s2) ∧
    (∀ o s pn body r s2, transformGetAccessor f o s pn body = (.ok r, s2) →
      TopUpd s s2) ∧
    (∀ o s pn p body r s2, transformSetAccessor f o s pn p body = (.ok r, s2) →
      TopUpd s s2) ∧
    (∀ o s n g ps body r s2,
      transformPropertyMethodAssignment f o s n g ps body = (.ok r, s2) →
      TopUpd s s2) ∧
    (∀ o s ps body r s2, transformConstructor f o s ps body = (.ok r, s2) →
      TopUpd s s2) ∧
    (∀ o s t r s2, transformSuperInBlock f o s t = (.ok r, s2) → TopUpd s s2) := by
  intro f
  induction f with
  | zero =>
    refine ⟨?_, ?_, ?_, ?_, ?_, ?_, ?_, ?_, ?_, ?_⟩ <;> intro o s <;> intros <;>
      simp_all [transformAny, transformClassExpression, transformClassDeclaration,
        transformClassShared, transformElements, transformGetAccessor,
        transformSetAccessor, transformPropertyMethodAssignment,
        transformConstructor, transformSuperInBlock]
  | succ f IH =>
    obtain ⟨IH1, IHce, IHcd, IHcs, IHel, IHga, IHsa, IHpma, IHct, IHsib⟩ := IH
    refine ⟨?_, ?_, ?_, ?_, ?_, ?_, ?_, ?_, ?_, ?_⟩
    · intro o s t r s2 h
      cases t <;> simp only [transformAny] at h
      case classExpression sc elems => exact IHce _ _ _ _ _ _ h
      case classDeclaration n sc elems => exact IHcd _ _ _ _ _ _ _ h
      all_goals (repeat' split at h)
      all_goals (simp only [Prod.mk.injEq, Except.ok.injEq, reduceCtorEq,
        false_and] at h)
      all_goals (obtain ⟨-, rfl⟩ := h)
      all_goals first
        | rfl
        | (rename_i x1 v1 s1 heq1 x2 v2 s2x heq2;
           exact (IH1 _ _ _ _ _ heq2).trans (IH1 _ _ _ _ _ heq1))
        | (rename_i x1 v1 s1 heq1;
           exact IH1 _ _ _ _ _ heq1)
    · intro o s sc elems r s2 h
      simp only [transformClassExpression] at h
      repeat' split at h
      all_goals (simp only [Prod.mk.injEq, Except.ok.injEq, reduceCtorEq,
        false_and] at h)
      all_goals (obtain ⟨-, rfl⟩ := h)
      all_goals (rename_i x1 ct hs s2x heqB hcond)
      · exact (IHcs _ _ _ _ _ _ _ _ _ heqB).trans (addTempVar_stack s)
      · rw [removeTempVar_stack]
        exact (IHcs _ _ _ _ _ _ _ _ _ heqB).trans (addTempVar_stack s)
    · intro o s n sc elems r s2 h
      simp only [transformClassDeclaration] at h
      repeat' split at h
      all_goals (simp only [Prod.mk.injEq, Except.ok.injEq, reduceCtorEq,
        false_and] at h)
      all_goals (obtain ⟨-, rfl⟩ := h)
      rename_i x1 ct hs s2x heqB
      exact IHcs _ _ _ _ _ _ _ _ _ heqB
    · intro o s tree sc elems name r b s2 h
      simp only [transformClassShared] at h
      split at h
      · simp at h
      rename_i xA superClass s1 heqA
      split at h
      · simp at h
      rename_i xB elems2 hasCtor s3 heqB
      split at h
      · simp at h
      rename_i xC elems3 s4 heqC
      split at h
      · simp at h
      rename_i stkv st rest heqStk
      simp only [Prod.mk.injEq, Except.ok.injEq] at h
      obtain ⟨⟨-, -⟩, rfl⟩ := h
      have hA := IH1 _ _ _ _ _ heqA
      have hTU := IHel _ _ _ _ _ _ heqB
      obtain ⟨st1, h3⟩ := topUpd_tail (rfl :
        (⟨{ tree := tree, name := .identifierExpression name, hasSuper := false } ::
          s1.stack, s1.counter, s1.free⟩ : TState).stack =
        { tree := tree, name := .identifierExpression name, hasSuper := false } ::
          s1.stack) hTU
      split at heqC
      · simp only [Prod.mk.injEq, Except.ok.injEq] at heqC
        obtain ⟨-, rfl⟩ := heqC
        rw [h3] at heqStk
        injection heqStk with h5 h6
        simp only [← h6, hA]
      · split at heqC
        · simp at heqC
        rename_i xD d s4x heqCT
        simp only [Prod.mk.injEq, Except.ok.injEq] at heqC
        obtain ⟨-, rfl⟩ := heqC
        obtain ⟨st2, h4⟩ := topUpd_tail h3 (IHct _ _ _ _ _ _ heqCT)
        rw [h4] at heqStk
        injection heqStk with h5 h6
        simp only [← h6, hA]
    · intro o s elems r b s2 h
      cases elems
      case seqNil =>
        simp only [transformElements, Prod.mk.injEq, Except.ok.injEq] at h
        obtain ⟨⟨-, -⟩, rfl⟩ := h
        exact topUpd_refl _
      case seqCons e rest =>
        cases e <;> simp only [transformElements] at h <;> (repeat' split at h) <;>
          simp only [Prod.mk.injEq, Except.ok.injEq, reduceCtorEq, false_and] at h <;>
          obtain ⟨⟨-, -⟩, rfl⟩ := h
        · rename_i pn body x1 me isCtor s1 heqM x2 rest2 restCtor s2x heqR
          split at heqM
          · simp at heqM
          rename_i x3 e2x s1x heqGA
          simp only [Prod.mk.injEq, Except.ok.injEq] at heqM
          obtain ⟨⟨-, -⟩, rfl⟩ := heqM
          exact topUpd_trans (IHga _ _ _ _ _ _ heqGA) (IHel _ _ _ _ _ _ heqR)
        · rename_i pn p body x1 me isCtor s1 heqM x2 rest2 restCtor s2x heqR
          split at heqM
          · simp at heqM
          rename_i x3 e2x s1x heqSA
          simp only [Prod.mk.injEq, Except.ok.injEq] at heqM
          obtain ⟨⟨-, -⟩, rfl⟩ := heqM
          exact topUpd_trans (IHsa _ _ _ _ _ _ _ heqSA) (IHel _ _ _ _ _ _ heqR)
        · rename_i n g ps body x1 me isCtor s1 heqM x2 rest2 restCtor s2x heqR
          split at heqM
          · split at heqM
            · simp at heqM
            rename_i x3 e2x s1x heqCT
            simp only [Prod.mk.injEq, Except.ok.injEq] at heqM
            obtain ⟨⟨-, -⟩, rfl⟩ := heqM
            exact topUpd_trans (IHct _ _ _ _ _ _ heqCT) (IHel _ _ _ _ _ _ heqR)
          · split at heqM
            · simp at heqM
            rename_i x3 e2x s1x heqPM
            simp only [Prod.mk.injEq, Except.ok.injEq] at heqM
            obtain ⟨⟨-, -⟩, rfl⟩ := heqM
            exact topUpd_trans (IHpma _ _ _ _ _ _ _ _ heqPM) (IHel _ _ _ _ _ _ heqR)
      all_goals (simp [transformElements] at h)
    · intro o s pn body r s2 h
      simp only [transformGetAccessor] at h
      repeat' split at h
      all_goals (simp only [Prod.mk.injEq, Except.ok.injEq, reduceCtorEq,
        false_and] at h)
      all_goals (obtain ⟨-, rfl⟩ := h)
      all_goals (rename_i x1 v1 s1 heq1 hcond)
      all_goals (exact IHsib _ _ _ _ _ heq1)
    · intro o s pn p body r s2 h
      simp only [transformSetAccessor] at h
      repeat' split at h
      all_goals (simp only [Prod.mk.injEq, Except.ok.injEq, reduceCtorEq,
        false_and] at h)
      all_goals (obtain ⟨-, rfl⟩ := h)
      all_goals (rename_i x1 v1 s1 heq1 x2 v2 s2x heq2 hcond)
      all_goals (exact topUpd_left (IH1 _ _ _ _ _ heq1) (IHsib _ _ _ _ _ heq2))
    · intro o s n g ps body r s2 h
      simp only [transformPropertyMethodAssignment] at h
      repeat' split at h
      all_goals (simp only [Prod.mk.injEq, Except.ok.injEq, reduceCtorEq,
        false_and] at h)
      all_goals (obtain ⟨-, rfl⟩ := h)
      all_goals (rename_i x1 v1 s1 heq1 x2 v2 s2x heq2 hcond)
      all_goals (exact topUpd_left (IH1 _ _ _ _ _ heq1) (IHsib _ _ _ _ _ heq2))
    · intro o s ps body r s2 h
      simp only [transformConstructor] at h
      repeat' split at h
      all_goals (simp only [Prod.mk.injEq, Except.ok.injEq, reduceCtorEq,
        false_and] at h)
      all_goals (obtain ⟨-, rfl⟩ := h)
      rename_i x1 v1 s1 heq1 x2 v2 s2x heq2
      exact topUpd_left (IH1 _ _ _ _ _ heq1) (IHsib _ _ _ _ _ heq2)
    · intro o s t r s2 h
      simp only [transformSuperInBlock] at h
      split at h
      · simp at h
      rename_i st restS heqStack
      split at h
      · simp at h
      rename_i x1 t1 s1 heq1
      split at h
      · simp at h
      rename_i x2 t2 hs heq2
      simp only [Prod.mk.injEq, Except.ok.injEq] at h
      obtain ⟨-, rfl⟩ := h
      have hA := IH1 _ _ _ _ _ heq1
      by_cases hc : hs = true
      · rw [if_pos hc]
        refine Or.inr ⟨st, restS, heqStack, ?_⟩
        exact setTopHasSuper_stack (hA.trans heqStack)
      · rw [if_neg hc]
        exact topUpd_of_eq hA

end Traceur

namespace Traceur

theorem transformConstructor_defaultEval (f : Nat) (o : Options) (st : ClassState)
    (rest : List ClassState) (c : Nat) (fr : List String) :
    transformConstructor (f+9) o ⟨st :: rest, c, fr⟩ defaultConstructorParams
      defaultConstructorBody =
    (.ok (defaultCtorTransformed st.name),
      ⟨{ st with hasSuper := true } :: rest, c, fr⟩) := rfl

theorem transformElements_ctorFlag : ∀ f o s elems r b s2,
    transformElements f o s elems = (.ok (r, b), s2) →
    b = elementsHaveConstructor elems := by
  intro f
  induction f with
  | zero => intro o s elems r b s2 h; simp [transformElements] at h
  | succ f IH =>
    intro o s elems r b s2 h
    cases elems
    case seqNil =>
      simp only [transformElements, Prod.mk.injEq, Except.ok.injEq] at h
      obtain ⟨⟨-, rfl⟩, -⟩ := h
      simp [elementsHaveConstructor]
    case seqCons e rest =>
      cases e <;> simp only [transformElements] at h <;> (repeat' split at h) <;>
        simp only [Prod.mk.injEq, Except.ok.injEq, reduceCtorEq, false_and] at h <;>
        obtain ⟨⟨-, rfl⟩, -⟩ := h
      · rename_i pn body x1 me isCtor s1 heqM x2 rest2 restCtor s2x heqR
        split at heqM
        · simp at heqM
        rename_i x3 e2x s1x heqGA
        simp only [Prod.mk.injEq, Except.ok.injEq] at heqM
        obtain ⟨⟨-, rfl⟩, -⟩ := heqM
        simp [elementsHaveConstructor, IH _ _ _ _ _ _ heqR]
      · rename_i pn p body x1 me isCtor s1 heqM x2 rest2 restCtor s2x heqR
        split at heqM
        · simp at heqM
        rename_i x3 e2x s1x heqSA
        simp only [Prod.mk.injEq, Except.ok.injEq] at heqM
        obtain ⟨⟨-, rfl⟩, -⟩ := heqM
        simp [elementsHaveConstructor, IH _ _ _ _ _ _ heqR]
      · rename_i n g ps body x1 me isCtor s1 heqM x2 rest2 restCtor s2x heqR
        split at heqM
        · rename_i hcond
          split at heqM
          · simp at heqM
          rename_i x3 e2x s1x heqCT
          simp only [Prod.mk.injEq, Except.ok.injEq] at heqM
          obtain ⟨⟨-, rfl⟩, -⟩ := heqM
          simp [elementsHaveConstructor, hcond, IH _ _ _ _ _ _ heqR]
        · rename_i hcond
          split at heqM
          · simp at heqM
          rename_i x3 e2x s1x heqPM
          simp only [Prod.mk.injEq, Except.ok.injEq] at heqM
          obtain ⟨⟨-, rfl⟩, -⟩ := heqM
          simp [elementsHaveConstructor, hcond, IH _ _ _ _ _ _ heqR]
    all_goals (simp [transformElements] at h)

end Traceur

namespace Traceur

theorem transformClassShared_callShape : ∀ f o s tree sc elems name r hs s2,
    transformClassShared f o s tree sc elems name = (.ok (r, hs), s2) →
    ∃ a b c d, r = .callExpression createClassTarget
      (.seqCons (.objectLiteralExpression a)
        (.seqCons b (.seqCons (.booleanLiteral c)
          (.seqCons (.booleanLiteral d) .seqNil)))) := by
  intro f o s tree sc elems name r hs s2 h
  cases f with
  | zero => simp [transformClassShared] at h
  | succ f =>
    simp only [transformClassShared] at h
    repeat' split at h
    all_goals (simp only [Prod.mk.injEq, Except.ok.injEq, reduceCtorEq,
      false_and] at h)
    all_goals (obtain ⟨⟨rfl, -⟩, -⟩ := h)
    all_goals (exact ⟨_, _, _, _, rfl⟩)

theorem transformClassExpression_shape : ∀ f o s sc elems r s2,
    transformClassExpression f o s sc elems = (.ok r, s2) →
    (∃ a b, r = .parenExpression (.assignmentExpression a b)) ∨
    (∃ a b c d, r = .callExpression createClassTarget
      (.seqCons (.objectLiteralExpression a)
        (.seqCons b (.seqCons (.booleanLiteral c)
          (.seqCons (.booleanLiteral d) .seqNil))))) := by
  intro f o s sc elems r s2 h
  cases f with
  | zero => simp [transformClassExpression] at h
  | succ f =>
    simp only [transformClassExpression] at h
    repeat' split at h
    all_goals (simp only [Prod.mk.injEq, Except.ok.injEq, reduceCtorEq,
      false_and] at h)
    all_goals (obtain ⟨rfl, -⟩ := h)
    · exact Or.inl ⟨_, _, rfl⟩
    · rename_i x1 ct hs s2x heqB hcond
      exact Or.inr (transformClassShared_callShape _ _ _ _ _ _ _ _ _ _ heqB)

theorem transformClassDeclaration_shape : ∀ f o s n sc elems r s2,
    transformClassDeclaration f o s n sc elems = (.ok r, s2) →
    ∃ a, r = .variableStatement o.blockBinding n a := by
  intro f o s n sc elems r s2 h
  cases f with
  | zero => simp [transformClassDeclaration] at h
  | succ f =>
    simp only [transformClassDeclaration] at h
    repeat' split at h
    all_goals (simp only [Prod.mk.injEq, Except.ok.injEq, reduceCtorEq,
      false_and] at h)
    all_goals (obtain ⟨rfl, -⟩ := h)
    exact ⟨_, rfl⟩

theorem transformAny_missingVal : ∀ f o s r s2,
    transformAny f o s .missing = (.ok r, s2) → r = .missing := by
  intro f o s r s2 h
  cases f with
  | zero => simp [transformAny] at h
  | succ f =>
    simp only [transformAny, Prod.mk.injEq, Except.ok.injEq] at h
    exact h.1.symm

theorem transformAny_notMissing : ∀ f o s t r s2,
    transformAny f o s t = (.ok r, s2) → t ≠ Tree.missing → r ≠ Tree.missing := by
  intro f o s t r s2 h ht
  cases f with
  | zero => simp [transformAny] at h
  | succ f =>
    cases t <;> simp only [transformAny] at h
    case missing => exact absurd rfl ht
    case classExpression sc elems =>
      rcases transformClassExpression_shape _ _ _ _ _ _ _ h with ⟨a, b, rfl⟩ | ⟨a, b, c, d, rfl⟩ <;> simp
    case classDeclaration n sc elems =>
      obtain ⟨a, rfl⟩ := transformClassDeclaration_shape _ _ _ _ _ _ _ _ h
      simp
    all_goals (repeat' split at h)
    all_goals (simp only [Prod.mk.injEq, Except.ok.injEq, reduceCtorEq,
      false_and] at h)
    all_goals (obtain ⟨rfl, -⟩ := h)
    all_goals simp

end Traceur

namespace Traceur

theorem topUpd_tailNamed {s s2 : TState} {st0 : ClassState} {tail : List ClassState}
    (hs : s.stack = st0 :: tail) (h : TopUpd s s2) :
    ∃ st1, s2.stack = st1 :: tail ∧ st1.tree = st0.tree ∧ st1.name = st0.name := by
  rcases h with h | ⟨st3, rest3, h1, h2⟩
  · exact ⟨st0, h ▸ hs, rfl, rfl⟩
  · rw [hs] at h1
    cases h1
    exact ⟨_, h2, rfl, rfl⟩

end Traceur

namespace Traceur

set_option maxHeartbeats 1000000 in
/-- Full characterization of a successful shared class transform: the
superclass is transformed first (absence is preserved), the members
are mapped with the user-constructor flag equal to the syntactic
presence of a constructor member, the synthesized forwarding
constructor is appended exactly when that flag is false (whether or
not a superclass is present), the two booleans and the sentinel are
passed as the source builds them, and a class without a user
constructor always reports super usage. -/
theorem transformClassShared_char : ∀ f o s tree sc elems name r hs s2,
    transformClassShared (f+10) o s tree sc elems name = (.ok (r, hs), s2) →
    ∃ sc2 s1 mapped s3,
      transformAny (f+9) o s sc = (.ok sc2, s1) ∧
      s1.stack = s.stack ∧
      transformElements (f+9) o
        ⟨{ tree := tree, name := Tree.identifierExpression name, hasSuper := false } ::
          s1.stack, s1.counter, s1.free⟩ elems =
        (.ok (mapped, elementsHaveConstructor elems), s3) ∧
      (sc = Tree.missing ↔ sc2 = Tree.missing) ∧
      r = .callExpression createClassTarget
        (.seqCons (.objectLiteralExpression
            (if elementsHaveConstructor elems then mapped
             else seqAppend mapped
               (defaultCtorTransformed (Tree.identifierExpression name))))
          (.seqCons (if sc2 = Tree.missing then Tree.nullLiteral else sc2)
            (.seqCons (.booleanLiteral (elementsHaveConstructor elems))
              (.seqCons (.booleanLiteral (sc2 ≠ Tree.missing)) .seqNil)))) ∧
      (elementsHaveConstructor elems = false → hs = true) ∧
      s2.stack = s.stack := by
  intro f o s tree sc elems name r hs s2 h
  replace h : transformClassShared ((f+9)+1) o s tree sc elems name =
    (.ok (r, hs), s2) := h
  simp only [transformClassShared] at h
  split at h
  · simp at h
  rename_i xA sc2 s1 heqA
  split at h
  · simp at h
  rename_i xB mapped hasCtor s3 heqB
  split at h
  · simp at h
  rename_i xC elems3 s4 heqC
  split at h
  · simp at h
  rename_i stkv st rest heqStk
  simp only [Prod.mk.injEq, Except.ok.injEq] at h
  obtain ⟨⟨rfl, rfl⟩, rfl⟩ := h
  have hctor := transformElements_ctorFlag _ _ _ _ _ _ _ heqB
  subst hctor
  have hstack1 : s1.stack = s.stack := (stackPreservation (f+9)).1 _ _ _ _ _ heqA
  have hTU := (stackPreservation (f+9)).2.2.2.2.1 _ _ _ _ _ _ heqB
  obtain ⟨st1, h3, htree1, hname1⟩ := topUpd_tailNamed (rfl :
    (⟨{ tree := tree, name := .identifierExpression name, hasSuper := false } ::
      s1.stack, s1.counter, s1.free⟩ : TState).stack =
    { tree := tree, name := .identifierExpression name, hasSuper := false } ::
      s1.stack) hTU
  have hmissing : sc = Tree.missing ↔ sc2 = Tree.missing := by
    constructor
    · intro hh
      subst hh
      exact transformAny_missingVal _ _ _ _ _ heqA
    · intro hh
      by_contra hne
      exact transformAny_notMissing _ _ _ _ _ _ heqA hne hh
  split at heqC
  · rename_i hc
    simp only [Prod.mk.injEq, Except.ok.injEq] at heqC
    obtain ⟨rfl, rfl⟩ := heqC
    refine ⟨sc2, s1, mapped, s3, heqA, hstack1, heqB, hmissing, ?_, ?_, ?_⟩
    · simp [hc]
    · intro h5
      rw [hc] at h5
      cases h5
    · rw [h3] at heqStk
      injection heqStk with h5 h6
      rw [← h6, hstack1]
  · rename_i hc
    split at heqC
    · simp at heqC
    rename_i xD d s4x heqCT
    simp only [Prod.mk.injEq, Except.ok.injEq] at heqC
    obtain ⟨rfl, rfl⟩ := heqC
    rcases s3 with ⟨s3stack, s3c, s3f⟩
    simp only at h3
    subst h3
    rw [transformConstructor_defaultEval] at heqCT
    simp only [Prod.mk.injEq, Except.ok.injEq] at heqCT
    obtain ⟨rfl, rfl⟩ := heqCT
    simp only at heqStk
    injection heqStk with h5 h6
    refine ⟨sc2, s1, mapped, ⟨st1 :: s1.stack, s3c, s3f⟩, heqA, hstack1, heqB,
      hmissing, ?_, ?_, ?_⟩
    · simp only [Bool.not_eq_true] at hc
      rw [hname1] at *
      simp [hc]
    · intro h7
      rw [← h5]
    · rw [← h6, hstack1]

end Traceur

namespace Traceur

/-- CLAIM C5: for every class without an explicit superclass expression
the generated createClass call passes the has-superclass boolean as
false and the null-literal sentinel as superclass argument, and for
every class with one it passes true and the recursively transformed
superclass expression: a successful shared transform always builds
the call from the transformed superclass, with sentinel and flag
computed from its absence, and absence of the transformed superclass
coincides with absence of the original one. -/
theorem c5_superclassSentinelAndFlag : ∀ f o s tree sc elems name r hs s2,
    transformClassShared (f+1) o s tree sc elems name = (.ok (r, hs), s2) →
    ∃ sc2 s1 props,
      transformAny f o s sc = (.ok sc2, s1) ∧
      (sc = Tree.missing ↔ sc2 = Tree.missing) ∧
      r = .callExpression createClassTarget
        (.seqCons (.objectLiteralExpression props)
          (.seqCons (if sc2 = Tree.missing then Tree.nullLiteral else sc2)
            (.seqCons (.booleanLiteral (elementsHaveConstructor elems))
              (.seqCons (.booleanLiteral (sc2 ≠ Tree.missing)) .seqNil)))) := by
  intro f o s tree sc elems name r hs s2 h
  simp only [transformClassShared] at h
  split at h
  · simp at h
  rename_i xA sc2 s1 heqA
  split at h
  · simp at h
  rename_i xB mapped hasCtor s3 heqB
  split at h
  · simp at h
  rename_i xC elems3 s4 heqC
  split at h
  · simp at h
  rename_i stkv st rest heqStk
  simp only [Prod.mk.injEq, Except.ok.injEq] at h
  obtain ⟨⟨rfl, rfl⟩, rfl⟩ := h
  have hctor := transformElements_ctorFlag _ _ _ _ _ _ _ heqB
  subst hctor
  refine ⟨sc2, s1, elems3, heqA, ?_, rfl⟩
  constructor
  · intro hh
    subst hh
    exact transformAny_missingVal _ _ _ _ _ heqA
  · intro hh
    by_contra hne
    exact transformAny_notMissing _ _ _ _ _ _ heqA hne hh

/-- Concrete instance of the C5 theorem: a class extending the
identifier B, with no members, passes the transformed superclass and
the flag true; the hypothesis is discharged by computation. -/
theorem c5_witness : ∃ sc2 s1 props,
    transformAny 9 ⟨false⟩ ⟨[], 0, []⟩ (Tree.identifierExpression "B") =
      (.ok sc2, s1) ∧
    (Tree.identifierExpression "B" = Tree.missing ↔ sc2 = Tree.missing) ∧
    Tree.callExpression createClassTarget
        (.seqCons (.objectLiteralExpression
            (.seqCons (defaultCtorTransformed (.identifierExpression "C")) .seqNil))
          (.seqCons (.identifierExpression "B")
            (.seqCons (.booleanLiteral false)
              (.seqCons (.booleanLiteral true) .seqNil)))) =
      .callExpression createClassTarget
        (.seqCons (.objectLiteralExpression props)
          (.seqCons (if sc2 = Tree.missing then Tree.nullLiteral else sc2)
            (.seqCons (.booleanLiteral
                (elementsHaveConstructor Tree.seqNil))
              (.seqCons (.booleanLiteral (sc2 ≠ Tree.missing)) .seqNil)))) :=
  c5_superclassSentinelAndFlag 9 ⟨false⟩ ⟨[], 0, []⟩
    (.classExpression (.identifierExpression "B") .seqNil)
    (.identifierExpression "B") .seqNil "C" _ true ⟨[], 0, []⟩ rfl

/-- CLAIM C8: a set accessor whose body is unchanged by the super
rewrite is returned as the original node, original parameter
included, even when transforming the parameter produced a different
node. -/
theorem c8_setAccessorKeepsOriginal : ∀ f o s pn param body param2 s1 body2 s2,
    transformAny f o s param = (.ok param2, s1) →
    transformSuperInBlock f o s1 body = (.ok body2, s2) →
    body2 = body →
    transformSetAccessor (f+1) o s pn param body =
      (.ok (.setAccessor pn param body), s2) := by
  intro f o s pn param body param2 s1 body2 s2 h1 h2 h3
  subst h3
  simp [transformSetAccessor, h1, h2]

/-- Concrete instance of the C8 theorem: the parameter is itself a
class expression, so transforming it yields a different node (second
conjunct), yet the original set accessor is returned unchanged. -/
theorem c8_witness :
    transformSetAccessor 64 ⟨false⟩
        ⟨[⟨Tree.missing, .identifierExpression "Outer", false⟩], 0, []⟩ "p"
        (.classExpression .missing .seqNil) (.block .seqNil) =
      (.ok (.setAccessor "p" (.classExpression .missing .seqNil) (.block .seqNil)),
        ⟨[⟨Tree.missing, .identifierExpression "Outer", false⟩], 1, []⟩) ∧
    (∃ p2, (transformAny 63 ⟨false⟩
        ⟨[⟨Tree.missing, .identifierExpression "Outer", false⟩], 0, []⟩
        (.classExpression .missing .seqNil)).1 = .ok p2 ∧
      p2 ≠ .classExpression .missing .seqNil) :=
  ⟨c8_setAccessorKeepsOriginal 63 ⟨false⟩
      ⟨[⟨Tree.missing, .identifierExpression "Outer", false⟩], 0, []⟩ "p"
      (.classExpression .missing .seqNil) (.block .seqNil) _ _ _ _ rfl rfl rfl,
    ⟨_, rfl, by decide⟩⟩

/-- CLAIM C9: an unrecognized class-member kind makes the shared
class transform throw the fatal error after the class context was
pushed and before it is popped, so the module-level stack retains the
entry for the failing class and a later transform would observe the
stale context. -/
theorem c9_unknownElementLeavesStaleContext : ∀ g o s tree name k rest,
    transformClassShared (g+1+1) o s tree .missing
        (.seqCons (.unknownElement k) rest) name =
      (.error "Unexpected class element",
        ⟨⟨tree, .identifierExpression name, false⟩ :: s.stack,
          s.counter, s.free⟩) := by
  intro g o s tree name k rest
  rfl

end Traceur

namespace Traceur

/-- CLAIM C1 counterexample: a class with no user constructor and no
superclass expression.  The result shows the synthesized forwarding
constructor appended to the member object literal even though the
has-extends argument (the last boolean literal) is false, refuting
the restriction of the synthesis to classes where a superclass is
expected; the third argument records has-user-constructor false. -/
theorem c1_counterexample :
    transformClassShared 10 ⟨false⟩ ⟨[], 0, []⟩ (.classExpression .missing .seqNil)
      .missing .seqNil "C" =
    (.ok (.callExpression createClassTarget
        (.seqCons (.objectLiteralExpression
            (.seqCons (defaultCtorTransformed (.identifierExpression "C")) .seqNil))
          (.seqCons .nullLiteral
            (.seqCons (.booleanLiteral false)
              (.seqCons (.booleanLiteral false) .seqNil)))), true),
      ⟨[], 0, []⟩) := rfl

/-- CLAIM C1 (amended): whenever the class has no user constructor,
the shared class transform appends the result of running the
synthesized constructor (a single rest parameter spread back into a
super call) through the ordinary constructor transform, regardless of
whether a superclass is expected, and the has-user-constructor
boolean passed to the runtime helper is false; when a user
constructor exists nothing is appended and the boolean is true.  The
first conjunct covers every successful run with the appended element
abstract; the second pins the exact shape of the appended forwarding
constructor (given enough fuel to evaluate it). -/
theorem c1_defaultConstructorSynthesis :
    (∀ f o s tree sc elems name r hs s2,
      transformClassShared (f+1) o s tree sc elems name = (.ok (r, hs), s2) →
      ∃ sc2 s1 mapped s3,
        transformAny f o s sc = (.ok sc2, s1) ∧
        transformElements f o
          ⟨⟨tree, .identifierExpression name, false⟩ :: s1.stack, s1.counter,
            s1.free⟩ elems = (.ok (mapped, elementsHaveConstructor elems), s3) ∧
        (elementsHaveConstructor elems = false →
          ∃ d s4, transformConstructor f o s3 defaultConstructorParams
              defaultConstructorBody = (.ok d, s4) ∧
            r = .callExpression createClassTarget
              (.seqCons (.objectLiteralExpression (seqAppend mapped d))
                (.seqCons (if sc2 = Tree.missing then .nullLiteral else sc2)
                  (.seqCons (.booleanLiteral false)
                    (.seqCons (.booleanLiteral (sc2 ≠ Tree.missing)) .seqNil))))) ∧
        (elementsHaveConstructor elems = true →
          r = .callExpression createClassTarget
            (.seqCons (.objectLiteralExpression mapped)
              (.seqCons (if sc2 = Tree.missing then .nullLiteral else sc2)
                (.seqCons (.booleanLiteral true)
                  (.seqCons (.booleanLiteral (sc2 ≠ Tree.missing)) .seqNil)))))) ∧
    (∀ f o s tree sc elems name r hs s2,
      transformClassShared (f+10) o s tree sc elems name = (.ok (r, hs), s2) →
      elementsHaveConstructor elems = false →
      ∃ sc2 s1 mapped s3,
        transformAny (f+9) o s sc = (.ok sc2, s1) ∧
        transformElements (f+9) o
          ⟨⟨tree, .identifierExpression name, false⟩ :: s1.stack, s1.counter,
            s1.free⟩ elems = (.ok (mapped, elementsHaveConstructor elems), s3) ∧
        r = .callExpression createClassTarget
          (.seqCons (.objectLiteralExpression
              (seqAppend mapped
                (defaultCtorTransformed (Tree.identifierExpression name))))
            (.seqCons (if sc2 = Tree.missing then .nullLiteral else sc2)
              (.seqCons (.booleanLiteral false)
                (.seqCons (.booleanLiteral (sc2 ≠ Tree.missing)) .seqNil))))) := by
  constructor
  · intro f o s tree sc elems name r hs s2 h
    simp only [transformClassShared] at h
    split at h
    · simp at h
    rename_i xA sc2 s1 heqA
    split at h
    · simp at h
    rename_i xB mapped hasCtor s3 heqB
    split at h
    · simp at h
    rename_i xC elems3 s4 heqC
    split at h
    · simp at h
    rename_i stkv st rest heqStk
    simp only [Prod.mk.injEq, Except.ok.injEq] at h
    obtain ⟨⟨rfl, rfl⟩, rfl⟩ := h
    have hctor := transformElements_ctorFlag _ _ _ _ _ _ _ heqB
    subst hctor
    refine ⟨sc2, s1, mapped, s3, heqA, heqB, ?_, ?_⟩
    · intro hc
      rw [hc] at heqC
      simp only [Bool.false_eq_true, if_false] at heqC
      split at heqC
      · simp at heqC
      rename_i xD d s4x heqCT
      simp only [Prod.mk.injEq, Except.ok.injEq] at heqC
      obtain ⟨rfl, rfl⟩ := heqC
      exact ⟨d, s4x, heqCT, by rw [hc]⟩
    · intro hc
      rw [hc] at heqC
      simp only [if_true] at heqC
      simp only [Prod.mk.injEq, Except.ok.injEq] at heqC
      obtain ⟨rfl, rfl⟩ := heqC
      rw [hc]
  · intro f o s tree sc elems name r hs s2 h hc
    obtain ⟨sc2, s1, mapped, s3, h1, hstack, h2, hmiss, hr, hsup, hpop⟩ :=
      transformClassShared_char f o s tree sc elems name r hs s2 h
    refine ⟨sc2, s1, mapped, s3, h1, h2, ?_⟩
    rw [hr, hc]
    simp

/-- Concrete instance of the C1 theorem at the empty class: the
member mapping runs with the user-constructor flag false; the
hypothesis is discharged by computation. -/
theorem c1_witness : ∃ mapped s3,
    transformElements 9 ⟨false⟩
      ⟨[⟨Tree.classExpression .missing .seqNil, .identifierExpression "C", false⟩],
        0, []⟩ Tree.seqNil =
    (.ok (mapped, elementsHaveConstructor Tree.seqNil), s3) := by
  obtain ⟨sc2, s1, mapped, s3, h1, h2, h3, h4⟩ :=
    c1_defaultConstructorSynthesis.1 9 ⟨false⟩ ⟨[], 0, []⟩
      (.classExpression .missing .seqNil) .missing .seqNil "C" _ _ _ rfl
  rw [show transformAny 9 ⟨false⟩ ⟨[], 0, []⟩ Tree.missing =
    (.ok Tree.missing, (⟨[], 0, []⟩ : TState)) from rfl] at h1
  simp only [Prod.mk.injEq, Except.ok.injEq] at h1
  obtain ⟨-, rfl⟩ := h1
  exact ⟨mapped, s3, h2⟩

/-- CLAIM C2 counterexample: a class expression with no members, so
no member uses super, is nevertheless transformed into a
parenthesized assignment into a freshly allocated temporary, and the
final state shows the temporary was kept (counter advanced to one,
free pool empty): the synthesized default constructor registered
super usage. -/
theorem c2_counterexample :
    transformClassExpression 11 ⟨false⟩ ⟨[], 0, []⟩ .missing .seqNil =
    (.ok (.parenExpression (.assignmentExpression (.identifierExpression "$__0")
        (.callExpression createClassTarget
          (.seqCons (.objectLiteralExpression
              (.seqCons (defaultCtorTransformed (.identifierExpression "$__0")) .seqNil))
            (.seqCons .nullLiteral
              (.seqCons (.booleanLiteral false)
                (.seqCons (.booleanLiteral false) .seqNil))))))),
      ⟨[], 1, []⟩) := rfl

/-- CLAIM C2 (amended): the expression transform reserves one
temporary, runs the shared transform under that name, and then
decides on the reported super usage: when no super usage was reported
it releases the temporary back to the free pool and returns the
runtime call directly, and when super usage was reported it keeps the
temporary and returns a parenthesized assignment of the call into it
(first conjunct, covering every successful run); every class
expression without a user constructor falls in the second category,
because the synthesized forwarding constructor always registers super
usage (second conjunct). -/
theorem c2_classExpressionTemp :
    (∀ f o s sc elems r s2,
      transformClassExpression (f+1) o s sc elems = (.ok r, s2) →
      ∃ c hs s2x,
        transformClassShared f o (addTempVar s).2 (.classExpression sc elems)
          sc elems (addTempVar s).1 = (.ok (c, hs), s2x) ∧
        (hs = true → r = .parenExpression (.assignmentExpression
          (.identifierExpression (addTempVar s).1) c) ∧ s2 = s2x) ∧
        (hs = false → r = c ∧ s2 = removeTempVar (addTempVar s).1 s2x)) ∧
    (∀ f o s sc elems r s2,
      transformClassExpression (f+11) o s sc elems = (.ok r, s2) →
      elementsHaveConstructor elems = false →
      ∃ c s2x,
        transformClassShared (f+10) o (addTempVar s).2 (.classExpression sc elems)
          sc elems (addTempVar s).1 = (.ok (c, true), s2x) ∧
        r = .parenExpression (.assignmentExpression
          (.identifierExpression (addTempVar s).1) c) ∧ s2 = s2x) := by
  constructor
  · intro f o s sc elems r s2 h
    simp only [transformClassExpression] at h
    split at h
    · simp at h
    rename_i xB c hs s2x heqB
    split at h
    · rename_i hcond
      subst hcond
      simp only [Prod.mk.injEq, Except.ok.injEq] at h
      obtain ⟨rfl, rfl⟩ := h
      refine ⟨c, true, s2x, heqB, fun _ => ⟨rfl, rfl⟩, ?_⟩
      intro hh
      simp at hh
    · rename_i hcond
      have hf : hs = false := by simpa using hcond
      subst hf
      simp only [Prod.mk.injEq, Except.ok.injEq] at h
      obtain ⟨rfl, rfl⟩ := h
      refine ⟨c, false, s2x, heqB, ?_, fun _ => ⟨rfl, rfl⟩⟩
      intro hh
      simp at hh
  · intro f o s sc elems r s2 h hnc
    replace h : transformClassExpression ((f+10)+1) o s sc elems = (.ok r, s2) := h
    simp only [transformClassExpression] at h
    split at h
    · simp at h
    rename_i xB c hs s2x heqB
    obtain ⟨-, -, -, -, -, -, -, -, -, hsup, -⟩ :=
      transformClassShared_char f o _ _ _ _ _ _ _ _ heqB
    have hsT := hsup hnc
    subst hsT
    rw [if_pos rfl] at h
    simp only [Prod.mk.injEq, Except.ok.injEq] at h
    obtain ⟨rfl, rfl⟩ := h
    exact ⟨c, s2x, heqB, rfl, rfl⟩

/-- Concrete instance of the C2 theorem: a class expression with a
user constructor and no super usage runs the shared transform under
the reserved temporary name; the hypothesis is discharged by
computation. -/
theorem c2_witness : ∃ c hs s2x,
    transformClassShared 10 ⟨false⟩ (addTempVar ⟨[], 0, []⟩).2
      (.classExpression .missing
        (.seqCons (.propertyMethodAssignment "constructor" false
          (.formalParameterList .seqNil) (.block .seqNil)) .seqNil))
      .missing
      (.seqCons (.propertyMethodAssignment "constructor" false
        (.formalParameterList .seqNil) (.block .seqNil)) .seqNil)
      (addTempVar ⟨[], 0, []⟩).1 = (.ok (c, hs), s2x) := by
  obtain ⟨c, hs, s2x, h1, -, -⟩ :=
    c2_classExpressionTemp.1 10 ⟨false⟩ ⟨[], 0, []⟩ .missing
      (.seqCons (.propertyMethodAssignment "constructor" false
        (.formalParameterList .seqNil) (.block .seqNil)) .seqNil) _ _ rfl
  exact ⟨c, hs, s2x, h1⟩

/-- CLAIM C6: each class transform pushes its own class context and
pops it on exit, so a successful transform leaves the module-level
stack exactly as it found it, including the hasSuper flags of every
enclosing entry (first two conjuncts); concretely, an outer class
whose only super usage sits inside a nested inner class is returned
as the direct runtime call rather than the parenthesized-assignment
form, showing the inner super set only the innermost context flag
(the final state also shows the outer temporary released and only
the inner one kept). -/
theorem c6_nestedClassIndependence :
    (∀ f o s t r s2, transformAny f o s t = (.ok r, s2) → s2.stack = s.stack) ∧
    (∀ f o s tree sc elems name r hs s2,
      transformClassShared f o s tree sc elems name = (.ok (r, hs), s2) →
      s2.stack = s.stack) ∧
    (∃ props, transformClassExpression 64 ⟨false⟩ ⟨[], 0, []⟩ .missing outerClassElems =
      (.ok (.callExpression createClassTarget props), ⟨[], 2, ["$__0"]⟩)) := by
  refine ⟨fun f => (stackPreservation f).1, ?_, ⟨_, rfl⟩⟩
  intro f o s tree sc elems name r hs s2 h
  exact (stackPreservation f).2.2.2.1 _ _ _ _ _ _ _ _ _ h

/-- Concrete application of the C6 theorem: the stack of the state
after a successful transform equals the input stack. -/
theorem c6_witness : ∃ s2,
    transformAny 5 ⟨false⟩ ⟨[⟨Tree.missing, .identifierExpression "A", false⟩], 0, []⟩
      (.identifierExpression "x") = (.ok (.identifierExpression "x"), s2) ∧
    s2.stack = [⟨Tree.missing, .identifierExpression "A", false⟩] :=
  ⟨_, rfl, c6_nestedClassIndependence.1 5 ⟨false⟩
    ⟨[⟨Tree.missing, .identifierExpression "A", false⟩], 0, []⟩
    (.identifierExpression "x") (.identifierExpression "x") _ rfl⟩

end Traceur

namespace FVC

theorem lookupKey_append (l1 l2 : List (String × Option Nat)) (n : String) :
    lookupKey (l1 ++ l2) n =
      if (lookupKey l1 n).isSome then lookupKey l1 n else lookupKey l2 n := by
  induction l1 with
  | nil => simp [lookupKey]
  | cons p l1 IH =>
    by_cases hp : (p.1 == n) = true
    · simp [lookupKey, List.find?, hp]
    · have hbeq : (p.1 == n) = false := by simpa using hp
      simp only [lookupKey, List.cons_append, List.find?, hbeq] at *
      exact IH

theorem lookupKey_append_left {l1 : List (String × Option Nat)} (l2 : List (String × Option Nat))
    {n : String} (h : (lookupKey l1 n).isSome) :
    lookupKey (l1 ++ l2) n = lookupKey l1 n := by
  rw [lookupKey_append, if_pos h]

/-- Looking a name up in a filtered list whose predicate depends only
on the key either finds the same first entry or nothing, depending on
the predicate at that key. -/
theorem lookupKey_filter (l : List (String × Option Nat)) (q : String → Bool)
    (n : String) :
    lookupKey (l.filter (fun p => q p.1)) n =
      if q n then lookupKey l n else none := by
  induction l with
  | nil => simp [lookupKey]
  | cons p l IH =>
    by_cases hp : p.1 = n
    · subst hp
      by_cases hq : q p.1
      · simp [lookupKey, List.filter, hq, List.find?]
      · simp only [List.filter, hq]
        rw [IH]
        simp [hq, lookupKey, List.find?]
    · have hbeq : (p.1 == n) = false := by simpa using hp
      by_cases hq : q p.1
      · simp only [List.filter, hq]
        simp only [lookupKey, List.find?, hbeq] at *
        exact IH
      · simp only [List.filter, hq]
        rw [IH]
        simp [lookupKey, List.find?, hbeq]

end FVC

namespace FVC

theorem scopeExt_refl (st : CState) : ScopeExt st st := by
  intro hd tl h
  exact ⟨hd, h, ⟨[], by simp⟩, ⟨[], by simp⟩⟩

theorem scopeExt_trans {st st2 st3 : CState} (h1 : ScopeExt st st2)
    (h2 : ScopeExt st2 st3) : ScopeExt st st3 := by
  intro hd tl h
  obtain ⟨hd2, ha, ⟨d1, hd1⟩, ⟨r1, hr1⟩⟩ := h1 hd tl h
  obtain ⟨hd3, hb, ⟨d2, hd2e⟩, ⟨r2, hr2⟩⟩ := h2 hd2 tl ha
  exact ⟨hd3, hb, ⟨d1 ++ d2, by rw [hd2e, hd1, List.append_assoc]⟩,
    ⟨r1 ++ r2, by rw [hr2, hr1, List.append_assoc]⟩⟩

theorem fnScopeExt_scopeExt {st st2 : CState} (h : FnScopeExt st st2) :
    ScopeExt st st2 := by
  intro hd tl hsc
  obtain ⟨rr, h2⟩ := h hd tl hsc
  exact ⟨_, h2, ⟨[], by simp⟩, ⟨rr, rfl⟩⟩

theorem declareVariable_scopeExt (n : String) (l : Option Nat) (st : CState) :
    ScopeExt st (declareVariable n l st) := by
  intro hd tl hsc
  unfold declareVariable
  by_cases hn : n = ""
  · rw [if_pos hn]
    exact ⟨hd, hsc, ⟨[], by simp⟩, ⟨[], by simp⟩⟩
  · rw [if_neg hn, hsc]
    dsimp only
    split
    · exact ⟨hd, hsc, ⟨[], by simp⟩, ⟨[], by simp⟩⟩
    · exact ⟨⟨hd.references, hd.declarations ++ [(n, l)]⟩, rfl,
        ⟨[(n, l)], rfl⟩, ⟨[], by simp⟩⟩

theorem addReference_scopeExt (n : String) (l : Option Nat) (st : CState) :
    ScopeExt st (addReference n l st) := by
  intro hd tl hsc
  unfold addReference
  rw [hsc]
  dsimp only
  split
  · exact ⟨hd, hsc, ⟨[], by simp⟩, ⟨[], by simp⟩⟩
  · exact ⟨⟨hd.references ++ [(n, l)], hd.declarations⟩, rfl,
      ⟨[], by simp⟩, ⟨[(n, l)], rfl⟩⟩

theorem validateScope_nonroot {st : CState} {sc hd : Scope} {tl : List Scope}
    (hsc : st.scopes = sc :: hd :: tl) :
    validateScope st = .ok { st with scopes :=
      { hd with references := hd.references ++
          ((pendingUnresolved sc).filter
            (fun p => (lookupKey hd.references p.1).isNone)) } :: tl } := by
  unfold validateScope
  rw [hsc]

theorem validateScope_nonroot_fnExt {st st2 : CState} {sc hd : Scope}
    {tl : List Scope} (hsc : st.scopes = sc :: hd :: tl)
    (h : validateScope st = .ok st2) :
    ∃ rr, st2.scopes =
      { references := hd.references ++ rr, declarations := hd.declarations } :: tl := by
  rw [validateScope_nonroot hsc] at h
  cases h
  exact ⟨_, rfl⟩

end FVC

namespace FVC

set_option maxHeartbeats 2000000 in
/-- Scope discipline of the checker visitor: a successful visit
leaves every scope below the innermost one untouched, only extends
the innermost mappings, and a whole function visit never adds a
declaration to the enclosing scope (it may only promote pending
references into it). -/
theorem visitPreservation : ∀ f : Nat,
    (∀ st t st2, visitAny f st t = .ok st2 → ScopeExt st st2) ∧
    (∀ st sts st2, visitStatements f st sts = .ok st2 → ScopeExt st st2) ∧
    (∀ st ni ps body st2, visitFunction f st ni ps body = .ok st2 →
      FnScopeExt st st2) ∧
    (∀ st ds st2, visitVarDecls f st ds = .ok st2 → ScopeExt st st2) ∧
    (∀ st ts st2, visitList f st ts = .ok st2 → ScopeExt st st2) ∧
    (∀ st ot st2, visitOpt f st ot = .ok st2 → ScopeExt st st2) := by
  intro f
  induction f with
  | zero =>
    refine ⟨?_, ?_, ?_, ?_, ?_, ?_⟩ <;> intro st <;> intros <;>
      simp_all [visitAny, visitStatements, visitFunction, visitVarDecls,
        visitList, visitOpt]
  | succ f IH =>
    obtain ⟨IH1, IHst, IHfn, IHvd, IHls, IHop⟩ := IH
    have hpop : ∀ (st1 st2 : CState) (hd : Scope) (tl : List Scope) (P S2 : Scope),
        st1.scopes = S2 :: hd :: tl → validateScope st1 = .ok st2 →
        ∃ hd2, st2.scopes = hd2 :: tl ∧
          (∃ d, hd2.declarations = hd.declarations ++ d) ∧
          (∃ rr, hd2.references = hd.references ++ rr) := by
      intro st1 st2 hd tl P S2 hsc1 hval
      obtain ⟨rr, h2⟩ := validateScope_nonroot_fnExt hsc1 hval
      exact ⟨_, h2, ⟨[], by simp⟩, ⟨rr, rfl⟩⟩
    refine ⟨?_, ?_, ?_, ?_, ?_, ?_⟩
    -- visitAny
    · intro st t st2 h
      cases t <;> simp only [visitAny] at h
      case program elems =>
        intro hd tl hsc
        split at h
        · simp at h
        rename_i st1 heqS
        have hext := IHst _ _ _ heqS ⟨[], []⟩ (hd :: tl) (by simp [pushScope, hsc])
        obtain ⟨S2, hsc1, -, -⟩ := hext
        exact hpop st1 st2 hd tl ⟨[], []⟩ S2 hsc1 h
      case block stmts => exact IHst _ _ _ h
      case functionDeclaration n nl ps body =>
        exact fnScopeExt_scopeExt (IHfn _ _ _ _ _ h)
      case arrowFunction ps body =>
        exact fnScopeExt_scopeExt (IHfn _ _ _ _ _ h)
      case getAccessor body =>
        intro hd tl hsc
        split at h
        · simp at h
        rename_i st1 heqS
        obtain ⟨S2, hsc1, -, -⟩ :=
          IH1 _ _ _ heqS ⟨[], []⟩ (hd :: tl) (by simp [pushScope, hsc])
        exact hpop st1 st2 hd tl ⟨[], []⟩ S2 hsc1 h
      case setAccessor param body =>
        intro hd tl hsc
        split at h
        · simp at h
        rename_i st1 heqS
        obtain ⟨P2, hscP, -, -⟩ :=
          declareVariable_scopeExt (bindingInfo param).1 (bindingInfo param).2
            (pushScope st) ⟨[], []⟩ (hd :: tl) (by simp [pushScope, hsc])
        obtain ⟨S2, hsc1, -, -⟩ := IH1 _ _ _ heqS P2 (hd :: tl) hscP
        exact hpop st1 st2 hd tl P2 S2 hsc1 h
      case catchClause b body =>
        intro hd tl hsc
        split at h
        · simp at h
        rename_i stB heqB
        split at h
        · simp at h
        rename_i st1 heqS
        obtain ⟨P2, hscP, -, -⟩ :=
          IH1 _ _ _ heqB ⟨[], []⟩ (hd :: tl) (by simp [pushScope, hsc])
        obtain ⟨S2, hsc1, -, -⟩ := IH1 _ _ _ heqS P2 (hd :: tl) hscP
        exact hpop st1 st2 hd tl P2 S2 hsc1 h
      case variableStatement ds => exact IHvd _ _ _ h
      case variableDeclaration lv init =>
        exact scopeExt_trans
          (declareVariable_scopeExt (bindingInfo lv).1 (bindingInfo lv).2 st)
          (IHop _ _ _ h)
      case bindingIdentifier n l =>
        cases h
        exact declareVariable_scopeExt n l st
      case identifierExpression n l =>
        cases h
        exact addReference_scopeExt n l st
      case expressionStatement e => exact IH1 _ _ _ h
      case returnStatement e => exact IHop _ _ _ h
      case callExpression op args =>
        split at h
        · simp at h
        rename_i st1 heqO
        exact scopeExt_trans (IH1 _ _ _ heqO) (IHls _ _ _ h)
      case literal =>
        cases h
        exact scopeExt_refl st
    -- visitStatements
    · intro st sts st2 h
      cases sts
      case nil =>
        cases h
        exact scopeExt_refl st
      case cons stmt rest =>
        simp only [visitStatements] at h
        split at h
        · simp at h
        rename_i stmid heqA
        refine scopeExt_trans (scopeExt_trans ?_ (IH1 _ _ _ heqA)) (IHst _ _ _ h)
        cases stmt <;> first
          | exact declareVariable_scopeExt _ _ st
          | exact scopeExt_refl st
    -- visitFunction
    · intro st ni ps body st2 h
      cases ni with
      | none =>
        simp only [visitFunction] at h
        split at h
        · simp at h
        rename_i st4 heqL
        split at h
        · simp at h
        rename_i st5 heqB
        intro hd tl hsc
        have hd2 := declareVariable_scopeExt "arguments" none (pushScope st)
        have hd3 := scopeExt_trans hd2 (IHls _ _ _ heqL)
        have hd4 := scopeExt_trans hd3 (IH1 _ _ _ heqB)
        obtain ⟨S2, hsc1, -, -⟩ := hd4 ⟨[], []⟩ (hd :: tl) (by simp [pushScope, hsc])
        exact validateScope_nonroot_fnExt hsc1 h
      | some p =>
        obtain ⟨n, l⟩ := p
        simp only [visitFunction] at h
        split at h
        · simp at h
        rename_i st4 heqL
        split at h
        · simp at h
        rename_i st5 heqB
        intro hd tl hsc
        have hd1 := declareVariable_scopeExt n l (pushScope st)
        have hd2 := scopeExt_trans hd1 (declareVariable_scopeExt "arguments" none _)
        have hd3 := scopeExt_trans hd2 (IHls _ _ _ heqL)
        have hd4 := scopeExt_trans hd3 (IH1 _ _ _ heqB)
        obtain ⟨S2, hsc1, -, -⟩ := hd4 ⟨[], []⟩ (hd :: tl) (by simp [pushScope, hsc])
        exact validateScope_nonroot_fnExt hsc1 h
    -- visitVarDecls
    · intro st ds st2 h
      cases ds
      case nil =>
        cases h
        exact scopeExt_refl st
      case cons d rest =>
        simp only [visitVarDecls] at h
        split at h
        · rename_i lv init
          split at h
          · simp at h
          rename_i stmid heqO
          refine scopeExt_trans (scopeExt_trans
            (declareVariable_scopeExt _ _ st) (IHop _ _ _ heqO)) (IHvd _ _ _ h)
        · split at h
          · simp at h
          rename_i stmid heqA
          exact scopeExt_trans (IH1 _ _ _ heqA) (IHvd _ _ _ h)
    -- visitList
    · intro st ts st2 h
      cases ts
      case nil =>
        cases h
        exact scopeExt_refl st
      case cons t rest =>
        simp only [visitList] at h
        split at h
        · simp at h
        rename_i stmid heqA
        exact scopeExt_trans (IH1 _ _ _ heqA) (IHls _ _ _ h)
    -- visitOpt
    · intro st ot st2 h
      cases ot
      case none =>
        cases h
        exact scopeExt_refl st
      case some t =>
        simp only [visitOpt] at h
        exact IH1 _ _ _ h

end FVC

namespace FVC

theorem insertByOffset_perm (e : Nat × String) (l : List (Nat × String)) :
    (insertByOffset e l).Perm (e :: l) := by
  induction l with
  | nil => simp [insertByOffset]
  | cons x rest IH =>
    unfold insertByOffset
    split
    · exact List.Perm.refl _
    · exact ((IH.cons x).trans (List.Perm.swap e x rest))

theorem sortByOffset_perm (l : List (Nat × String)) : (sortByOffset l).Perm l := by
  induction l with
  | nil => simp [sortByOffset]
  | cons e rest IH =>
    exact ((insertByOffset_perm e (sortByOffset rest)).trans (IH.cons e))

theorem insertByOffset_sorted (e : Nat × String) (l : List (Nat × String))
    (h : l.Pairwise (fun a b => a.1 ≤ b.1)) :
    (insertByOffset e l).Pairwise (fun a b => a.1 ≤ b.1) := by
  induction l with
  | nil => simp [insertByOffset]
  | cons x rest IH =>
    rw [List.pairwise_cons] at h
    unfold insertByOffset
    split
    · rename_i hle
      rw [List.pairwise_cons]
      refine ⟨?_, List.pairwise_cons.mpr h⟩
      intro b hb
      rcases List.mem_cons.mp hb with rfl | hb2
      · exact hle
      · exact le_trans hle (h.1 b hb2)
    · rename_i hgt
      rw [List.pairwise_cons]
      refine ⟨?_, IH h.2⟩
      intro b hb
      have hb2 := (insertByOffset_perm e rest).mem_iff.mp hb
      rcases List.mem_cons.mp hb2 with rfl | hb3
      · exact le_of_not_le hgt
      · exact h.1 b hb3

theorem sortByOffset_sorted (l : List (Nat × String)) :
    (sortByOffset l).Pairwise (fun a b => a.1 ≤ b.1) := by
  induction l with
  | nil => simp [sortByOffset]
  | cons e rest IH => exact insertByOffset_sorted e (sortByOffset rest) IH

theorem collectRootErrors_error {l : List (String × Option Nat)}
    (h : ∃ p ∈ l, p.2 = none) : ∃ m, collectRootErrors l = .error m := by
  induction l with
  | nil => simp at h
  | cons p rest IH =>
    obtain ⟨q, hq, hq2⟩ := h
    rcases List.mem_cons.mp hq with rfl | hmem
    · obtain ⟨n, loc⟩ := q
      simp only at hq2
      subst hq2
      exact ⟨_, rfl⟩
    · obtain ⟨n, loc⟩ := p
      cases loc with
      | none => exact ⟨_, rfl⟩
      | some v =>
        obtain ⟨m, hm⟩ := IH ⟨q, hmem, hq2⟩
        exact ⟨m, by simp [collectRootErrors, hm]⟩

theorem scopeExt_lookup {st st2 : CState} (h : ScopeExt st st2) {hd : Scope}
    {tl : List Scope} (hsc : st.scopes = hd :: tl) {n : String}
    (hk : (lookupKey hd.declarations n).isSome) :
    ∃ hd2, st2.scopes = hd2 :: tl ∧ (lookupKey hd2.declarations n).isSome := by
  obtain ⟨hd2, h2, ⟨d, hdd⟩, -⟩ := h hd tl hsc
  refine ⟨hd2, h2, ?_⟩
  rw [hdd, lookupKey_append, if_pos hk]
  exact hk

theorem declareVariable_lookup {n : String} (hne : n ≠ "") (l : Option Nat)
    {st : CState} {hd : Scope} {tl : List Scope} (hsc : st.scopes = hd :: tl) :
    ∃ hd1, (declareVariable n l st).scopes = hd1 :: tl ∧
      (lookupKey hd1.declarations n).isSome := by
  unfold declareVariable
  rw [if_neg hne, hsc]
  dsimp only
  split
  · rename_i hk
    exact ⟨hd, hsc, hk⟩
  · rename_i hk
    refine ⟨⟨hd.references, hd.declarations ++ [(n, l)]⟩, rfl, ?_⟩
    rw [lookupKey_append, if_neg hk]
    simp [lookupKey, List.find?]

/-- Processing one statement list declares the name of every direct
function-declaration element into the current scope, and the
declaration survives to the end of the list. -/
theorem visitStatements_hoist : ∀ (f : Nat) (sts : List PTree) (st st2 : CState)
    (hd : Scope) (tl : List Scope) (n : String) (nl : Option Nat)
    (ps : List PTree) (body : PTree),
    visitStatements f st sts = .ok st2 → st.scopes = hd :: tl →
    PTree.functionDeclaration n nl ps body ∈ sts → n ≠ "" →
    ∃ hd2, st2.scopes = hd2 :: tl ∧ (lookupKey hd2.declarations n).isSome := by
  intro f
  induction f with
  | zero => intro sts st st2 hd tl n nl ps body h; simp [visitStatements] at h
  | succ f IH =>
    intro sts st st2 hd tl n nl ps body h hsc hmem hne
    cases sts with
    | nil => simp at hmem
    | cons stmt rest =>
      rcases List.mem_cons.mp hmem with heq | hmem2
      · subst heq
        simp only [visitStatements] at h
        split at h
        · simp at h
        rename_i stmid heqA
        obtain ⟨hd1, hsc1, hk1⟩ := declareVariable_lookup hne nl hsc
        obtain ⟨hd2x, hsc2, hk2⟩ :=
          scopeExt_lookup ((visitPreservation f).1 _ _ _ heqA) hsc1 hk1
        exact scopeExt_lookup ((visitPreservation f).2.1 _ _ _ h) hsc2 hk2
      · simp only [visitStatements] at h
        split at h
        · simp at h
        rename_i stmid heqA
        have hpre : ∀ s0 : PTree, ScopeExt st (match s0 with
            | PTree.functionDeclaration n2 nl2 _ _ => declareVariable n2 nl2 st
            | _ => st) := by
          intro s0
          cases s0 <;> first
            | exact declareVariable_scopeExt _ _ st
            | exact scopeExt_refl st
        have h2 := scopeExt_trans (hpre stmt) ((visitPreservation f).1 _ _ _ heqA)
        obtain ⟨hdm, hscm, -, -⟩ := h2 hd tl hsc
        exact IH rest stmid st2 hdm tl n nl ps body h hscm hmem2 hne

end FVC

namespace FVC

/-- CLAIM C3: popping a non-root scope promotes every pending
reference not matched by a local declaration into the parent scope
reference mapping unless the parent already holds a pending reference
of that name (first conjunct, stated pointwise per name: the parent
keeps its own entry, otherwise receives the child entry exactly for
locally undeclared names); consequently two references to the same
undeclared name in different statements yield exactly one diagnostic
at the first occurrence location (second conjunct, on a program whose
two functions both reference the undeclared x). -/
theorem c3_promotionDedup :
    (∀ (sc parent : Scope) (rest : List Scope) (rep : List (Nat × String))
      (n : String),
      validateScope ⟨sc :: parent :: rest, rep⟩ =
        .ok ⟨{ parent with references := parent.references ++
          ((pendingUnresolved sc).filter
            (fun p => (lookupKey parent.references p.1).isNone)) } :: rest, rep⟩ ∧
      lookupKey (parent.references ++
          ((pendingUnresolved sc).filter
            (fun p => (lookupKey parent.references p.1).isNone))) n =
        (if (lookupKey parent.references n).isSome then lookupKey parent.references n
         else if (lookupKey sc.declarations n).isNone then lookupKey sc.references n
         else none)) ∧
    checkProgram 64 []
      [.expressionStatement (.functionDeclaration "a" none [] (.block
        [.expressionStatement (.identifierExpression "x" (some 3))])),
       .expressionStatement (.functionDeclaration "b" none [] (.block
        [.expressionStatement (.identifierExpression "x" (some 7))]))] =
      .ok ⟨[], [(3, "x")]⟩ := by
  refine ⟨?_, rfl⟩
  intro sc parent rest rep n
  refine ⟨validateScope_nonroot rfl, ?_⟩
  rw [lookupKey_append]
  unfold pendingUnresolved
  rw [lookupKey_filter (sc.references.filter
        (fun p => (lookupKey sc.declarations p.1).isNone))
      (fun a => (lookupKey parent.references a).isNone) n,
    lookupKey_filter sc.references
      (fun a => (lookupKey sc.declarations a).isNone) n]
  by_cases hp : (lookupKey parent.references n).isSome
  · rw [if_pos hp]
    simp [hp]
  · rw [if_neg hp]
    have hno : (lookupKey parent.references n).isNone = true := by
      simpa [Option.isNone_iff_eq_none, Option.not_isSome_iff_eq_none] using hp
    rw [if_pos hno]
    simp [hp]

/-- CLAIM C4: a function-declaration statement that is a direct
element of a statement list has its name declared in the enclosing
scope during the processing of that list, and the declaration is
still present when the list ends, so a forward reference resolves
without a diagnostic (second conjunct: the spec example of two
mutually ordered functions reports nothing); arrow functions receive
no such enclosing-scope name declaration: visiting an arrow-function
expression statement never adds a declaration to the enclosing scope
(third conjunct). -/
theorem c4_functionHoisting :
    (∀ (f : Nat) (sts : List PTree) (st st2 : CState) (hd : Scope)
      (tl : List Scope) (n : String) (nl : Option Nat) (ps : List PTree)
      (body : PTree),
      visitStatements f st sts = .ok st2 → st.scopes = hd :: tl →
      PTree.functionDeclaration n nl ps body ∈ sts → n ≠ "" →
      ∃ hd2, st2.scopes = hd2 :: tl ∧ (lookupKey hd2.declarations n).isSome) ∧
    checkProgram 64 []
      [.functionDeclaration "f" (some 0) [] (.block
        [.returnStatement (some (.callExpression
          (.identifierExpression "g" (some 5)) []))]),
       .functionDeclaration "g" (some 10) [] (.block
        [.returnStatement (some .literal)])] = .ok ⟨[], []⟩ ∧
    (∀ (f : Nat) (ps : List PTree) (body : PTree) (st st2 : CState)
      (hd : Scope) (tl : List Scope),
      st.scopes = hd :: tl →
      visitAny (f+1+1) st (.expressionStatement (.arrowFunction ps body)) =
        .ok st2 →
      ∃ rr, st2.scopes =
        { references := hd.references ++ rr,
          declarations := hd.declarations } :: tl) := by
  refine ⟨visitStatements_hoist, rfl, ?_⟩
  intro f ps body st st2 hd tl hsc h
  replace h : visitFunction f st none ps body = .ok st2 := h
  exact (visitPreservation f).2.2.1 _ _ _ _ _ h hd tl hsc

/-- Concrete application of the C4 theorem: a one-element statement
list declaring the function g leaves g declared in the scope. -/
theorem c4_witness : ∃ st2 hd2,
    visitStatements 64 ⟨[⟨[], []⟩], []⟩
      [PTree.functionDeclaration "g" (some 10) [] (.block [.returnStatement none])] =
      .ok st2 ∧
    st2.scopes = [hd2] ∧ (lookupKey hd2.declarations "g").isSome := by
  obtain ⟨hd2, hsc, hk⟩ := c4_functionHoisting.1 64
    [PTree.functionDeclaration "g" (some 10) [] (.block [.returnStatement none])]
    ⟨[⟨[], []⟩], []⟩ _ ⟨[], []⟩ [] "g" (some 10) []
    (.block [.returnStatement none]) rfl rfl (List.Mem.head _) (by decide)
  exact ⟨_, hd2, rfl, hsc, hk⟩

/-- CLAIM C7: at the root scope, an unresolved reference without a
recorded location aborts the pass with a fatal error rather than a
diagnostic (first conjunct); otherwise the collected diagnostics are
appended to the report sorted by ascending source position, a
permutation of the unresolved list, so output order is deterministic
and follows source order (second conjunct). -/
theorem c7_rootDiagnostics :
    (∀ (sc : Scope) (rep : List (Nat × String)),
      (∃ p ∈ pendingUnresolved sc, p.2 = none) →
      ∃ m, validateScope ⟨[sc], rep⟩ = .error m) ∧
    (∀ (sc : Scope) (rep es : List (Nat × String)),
      collectRootErrors (pendingUnresolved sc) = .ok es →
      validateScope ⟨[sc], rep⟩ = .ok ⟨[], rep ++ sortByOffset es⟩ ∧
      (sortByOffset es).Pairwise (fun a b => a.1 ≤ b.1) ∧
      (sortByOffset es).Perm es) := by
  constructor
  · intro sc rep hex
    obtain ⟨m, hm⟩ := collectRootErrors_error hex
    exact ⟨m, by simp [validateScope, hm]⟩
  · intro sc rep es h
    refine ⟨by simp [validateScope, h], sortByOffset_sorted es, sortByOffset_perm es⟩

/-- Concrete application of the C7 theorem: a location-less pending
reference aborts with the fatal error, and located ones come out
sorted by offset. -/
theorem c7_witness :
    (∃ m, validateScope ⟨[⟨[("t", none)], []⟩], []⟩ = .error m) ∧
    validateScope ⟨[⟨[("u", some 9), ("t", some 4)], []⟩], []⟩ =
      .ok ⟨[], [] ++ sortByOffset [(9, "u"), (4, "t")]⟩ :=
  ⟨c7_rootDiagnostics.1 ⟨[("t", none)], []⟩ [] (by decide),
    (c7_rootDiagnostics.2 ⟨[("u", some 9), ("t", some 4)], []⟩ []
      [(9, "u"), (4, "t")] rfl).1⟩

/-- CLAIM C10: a function declaration visited outside a statement
list (here: as an expression) declares its name only inside its own
new scope, never in the enclosing one (first conjunct: the enclosing
declarations are unchanged); the name still resolves recursively
inside the function (second conjunct reports no diagnostic), while a
reference from outside is unresolved (third conjunct reports the
diagnostic at the reference location). -/
theorem c10_noHoistingOutsideLists :
    (∀ (f : Nat) (n : String) (nl : Option Nat) (ps : List PTree) (body : PTree)
      (st st2 : CState) (hd : Scope) (tl : List Scope),
      st.scopes = hd :: tl →
      visitAny (f+1+1) st
        (.expressionStatement (.functionDeclaration n nl ps body)) = .ok st2 →
      ∃ rr, st2.scopes =
        { references := hd.references ++ rr,
          declarations := hd.declarations } :: tl) ∧
    checkProgram 64 []
      [.expressionStatement (.functionDeclaration "f" none [] (.block
        [.returnStatement (some (.callExpression
          (.identifierExpression "f" (some 3)) []))]))] = .ok ⟨[], []⟩ ∧
    checkProgram 64 []
      [.expressionStatement (.functionDeclaration "f" none [] (.block
        [.returnStatement none])),
       .expressionStatement (.identifierExpression "f" (some 9))] =
      .ok ⟨[], [(9, "f")]⟩ := by
  refine ⟨?_, rfl, rfl⟩
  intro f n nl ps body st st2 hd tl hsc h
  replace h : visitFunction f st (some (n, nl)) ps body = .ok st2 := h
  exact (visitPreservation f).2.2.1 _ _ _ _ _ h hd tl hsc

/-- Concrete application of the C10 theorem: visiting a function
declaration in expression position leaves the enclosing declaration
mapping empty. -/
theorem c10_witness : ∃ st2 rr,
    visitAny (62+1+1) ⟨[⟨[], []⟩], []⟩
      (.expressionStatement (.functionDeclaration "f" none [] (.block []))) =
      .ok st2 ∧
    st2.scopes = [⟨[] ++ rr, []⟩] := by
  obtain ⟨rr, h2⟩ := c10_noHoistingOutsideLists.1 62 "f" none [] (.block [])
    ⟨[⟨[], []⟩], []⟩ _ ⟨[], []⟩ [] rfl rfl
  exact ⟨_, rr, rfl, h2⟩

end FVC
